import Mathlib

/-!
Verification development for the memberlist failure-detector core
(`state.go`).  The Go code is shallowly embedded: the node table is the
pair of the map `nodeMap` (an association list, mirroring the Go map of
pointers) and the probe sequence `nodes` (the list of names, mirroring
the slice of pointers into the same records; sharing of the record
contents is modelled by routing every read and write through the map).
Wall-clock times (Go `time.Time`) are modelled as natural numbers passed
in as the `now` argument of each mutating call, and the random offset
drawn by `randomOffset` is likewise an explicit argument.
-/

set_option maxRecDepth 4000

namespace Memberlist

/-! ## Association-list primitives (model of the Go map) -/

def lookupA {κ α : Type} [DecidableEq κ] (m : List (κ × α)) (k : κ) : Option α :=
  match m with
  | [] => none
  | (k', v) :: rest => if k' = k then some v else lookupA rest k

def insertA {κ α : Type} [DecidableEq κ] (m : List (κ × α)) (k : κ) (v : α) :
    List (κ × α) :=
  match m with
  | [] => [(k, v)]
  | (k', v') :: rest => if k' = k then (k, v) :: rest else (k', v') :: insertA rest k v

def eraseA {κ α : Type} [DecidableEq κ] (m : List (κ × α)) (k : κ) : List (κ × α) :=
  match m with
  | [] => []
  | (k', v) :: rest => if k' = k then eraseA rest k else (k', v) :: eraseA rest k

/-! ## Data model (`Node`, `NodeState`, messages, configuration) -/

/-- The three node states; the Go source declares them with `iota`, so we
keep them as numerals (`StateAlive = 0`, `StateSuspect = 1`,
`StateDead = 2`).  Remote push/pull records may carry any integer. -/
def StateAlive : Nat := 0

def StateSuspect : Nat := 1

def StateDead : Nat := 2

/-- Go `Node`: identity, address and opaque metadata. -/
structure NodeInfo where
  Name : String
  Addr : List Nat
  Meta : List Nat
  deriving DecidableEq

/-- Go `NodeState`: a `Node` (flattened) plus incarnation, state and the
time of the last state change. -/
structure NodeState where
  Name : String
  Addr : List Nat
  Meta : List Nat
  Incarnation : Nat
  State : Nat
  StateChange : Nat
  deriving DecidableEq

def NodeState.toNode (ns : NodeState) : NodeInfo :=
  ⟨ns.Name, ns.Addr, ns.Meta⟩

/-- The `alive` message. -/
structure Alive where
  Incarnation : Nat
  Node : String
  Addr : List Nat
  Meta : List Nat
  deriving DecidableEq

/-- The `suspect` message. -/
structure Suspect where
  Incarnation : Nat
  Node : String
  deriving DecidableEq

/-- The `dead` message. -/
structure Dead where
  Incarnation : Nat
  Node : String
  deriving DecidableEq

/-- A record of a remote node received in a push/pull exchange. -/
structure PushNodeState where
  Name : String
  Addr : List Nat
  Meta : List Nat
  Incarnation : Nat
  State : Nat
  deriving DecidableEq

/-- A queued broadcast produced by `encodeAndBroadcast`. -/
inductive Broadcast where
  | aliveMsg (a : Alive)
  | suspectMsg (s : Suspect)
  | deadMsg (d : Dead)
  deriving DecidableEq

/-- The configuration fields the core consults. -/
structure Config where
  Name : String
  ProbeInterval : Int
  PushPullInterval : Int
  GossipInterval : Int
  GossipNodes : Int
  deriving DecidableEq

/-- The membership state: the node map and sequence (sharing one backing
record per name, see the module comment), the atomic incarnation and
sequence counters, the leave flag, the probe index, and the observable
outputs (broadcast queue, join/leave notifications). -/
structure MState where
  config : Config
  nodes : List String
  nodeMap : List (String × NodeState)
  incarnation : Nat
  sequenceNum : Nat
  leave : Bool
  probeIndex : Nat
  broadcasts : List Broadcast
  joins : List NodeInfo
  leaves : List NodeInfo
  deriving DecidableEq

/-- `uint32` modulus for the atomic counters. -/
def U32 : Nat := 4294967296

/-- `nextIncarnation`: `atomic.AddUint32(&m.incarnation, 1)`; returns the
updated state together with the incremented value. -/
def nextIncarnation (st : MState) : MState × Nat :=
  let inc := (st.incarnation + 1) % U32
  ({ st with incarnation := inc }, inc)

/-- Swap the elements at positions `i` and `j` (the Go parallel
assignment `l[i], l[j] = l[j], l[i]`); out-of-range indices leave the
list unchanged (they cannot occur in the source). -/
def swapL {α : Type} (l : List α) (i j : Nat) : List α :=
  match l.get? i, l.get? j with
  | some a, some b => (l.set i b).set j a
  | _, _ => l

/-! ## The state machine (`aliveNode`, `suspectNode`, `deadNode`) -/

/-- The part of `aliveNode` after the creation block: bail if the
incarnation number is old, otherwise re-broadcast, update the record and
notify of a join when the prior state was Dead. -/
def aliveNodeUpdate (st : MState) (a : Alive) (now : Nat) : MState :=
  match lookupA st.nodeMap a.Node with
  | none => st
  | some state =>
    if a.Incarnation ≤ state.Incarnation then st
    else
      let st := { st with broadcasts := st.broadcasts ++ [Broadcast.aliveMsg a] }
      let oldState := state.State
      let state := { state with Incarnation := a.Incarnation }
      let state :=
        if state.State ≠ StateAlive then
          { state with State := StateAlive, StateChange := now }
        else state
      let st := { st with nodeMap := insertA st.nodeMap a.Node state }
      if oldState = StateDead then { st with joins := st.joins ++ [state.toNode] }
      else st

/-- `aliveNode`: handle an inbound alive message.  `offset` is the value
drawn by `randomOffset(n)` at insertion and `now` is `time.Now()`.  On
first mention a Dead record with zero incarnation is created and
inserted by the random-offset swap; then the update block
(`aliveNodeUpdate`) runs. -/
def aliveNode (st : MState) (a : Alive) (offset : Nat) (now : Nat) : MState :=
  let st :=
    match lookupA st.nodeMap a.Node with
    | some _ => st
    | none =>
      let state : NodeState :=
        ⟨a.Node, a.Addr, a.Meta, 0, StateDead, 0⟩
      let n := st.nodes.length
      { st with
        nodeMap := insertA st.nodeMap a.Node state,
        nodes := swapL (st.nodes ++ [a.Node]) offset n }
  aliveNodeUpdate st a now

/-- `suspectNode`: handle an inbound suspect message (`now` is
`time.Now()`).  The suspicion timer armed at the end of the Go function
is modelled separately by `suspicionFire`. -/
def suspectNode (st : MState) (s : Suspect) (now : Nat) : MState :=
  match lookupA st.nodeMap s.Node with
  | none => st
  | some state =>
    if s.Incarnation < state.Incarnation then st
    else if state.State ≠ StateAlive then st
    else if state.Name = st.config.Name then
      let (st, inc) := nextIncarnation st
      let a : Alive := ⟨inc, state.Name, state.Addr, state.Meta⟩
      let st := { st with broadcasts := st.broadcasts ++ [Broadcast.aliveMsg a] }
      { st with nodeMap := insertA st.nodeMap s.Node { state with Incarnation := inc } }
    else
      let st := { st with broadcasts := st.broadcasts ++ [Broadcast.suspectMsg s] }
      { st with
        nodeMap := insertA st.nodeMap s.Node
          { state with Incarnation := s.Incarnation, State := StateSuspect,
                       StateChange := now } }

/-- `deadNode`: handle an inbound dead message (`now` is `time.Now()`). -/
def deadNode (st : MState) (d : Dead) (now : Nat) : MState :=
  match lookupA st.nodeMap d.Node with
  | none => st
  | some state =>
    if d.Incarnation < state.Incarnation then st
    else if state.State = StateDead then st
    else if state.Name = st.config.Name ∧ st.leave = false then
      let (st, inc) := nextIncarnation st
      let a : Alive := ⟨inc, state.Name, state.Addr, state.Meta⟩
      let st := { st with broadcasts := st.broadcasts ++ [Broadcast.aliveMsg a] }
      { st with nodeMap := insertA st.nodeMap d.Node { state with Incarnation := inc } }
    else
      let st := { st with broadcasts := st.broadcasts ++ [Broadcast.deadMsg d] }
      let state := { state with Incarnation := d.Incarnation, State := StateDead,
                                StateChange := now }
      let st := { st with nodeMap := insertA st.nodeMap d.Node state }
      { st with leaves := st.leaves ++ [state.toNode] }

/-- One record of a push/pull merge: skip when the states agree, else
dispatch on the remote state (the Go `switch`; any other integer state
falls through with no effect). -/
def applyRemote (st : MState) (r : PushNodeState) (offset : Nat) (now : Nat) : MState :=
  let skip : Bool :=
    match lookupA st.nodeMap r.Name with
    | some locl => locl.State == r.State
    | none => false
  if skip then st
  else if r.State = StateAlive then
    aliveNode st ⟨r.Incarnation, r.Name, r.Addr, r.Meta⟩ offset now
  else if r.State = StateSuspect then
    suspectNode st ⟨r.Incarnation, r.Name⟩ now
  else if r.State = StateDead then
    deadNode st ⟨r.Incarnation, r.Name⟩ now
  else st

/-- `mergeState`: fold the remote records through `applyRemote`; each
record is paired with the random offset and timestamp its handling
draws. -/
def mergeState (st : MState) (remote : List (PushNodeState × Nat × Nat)) : MState :=
  remote.foldl (fun st r => applyRemote st r.1 r.2.1 r.2.2) st

/-- An inbound event driving the state machine, with its oracle data
(timestamps and random offsets). -/
inductive Event where
  | alive (a : Alive) (offset : Nat) (now : Nat)
  | suspect (s : Suspect) (now : Nat)
  | dead (d : Dead) (now : Nat)
  | merge (remote : List (PushNodeState × Nat × Nat))
  deriving DecidableEq

def applyEvent (st : MState) : Event → MState
  | Event.alive a offset now => aliveNode st a offset now
  | Event.suspect s now => suspectNode st s now
  | Event.dead d now => deadNode st d now
  | Event.merge remote => mergeState st remote

def run (st : MState) (evs : List Event) : MState :=
  evs.foldl applyEvent st

/-- The suspicion-timer callback armed by `suspectNode`: at fire time
the captured record is re-read; if it is still Suspect and its
`StateChange` still equals the value captured at arming, a
`Dead{Incarnation: state.Incarnation, Node: state.Name}` is synthesized
and fed to `deadNode` (via `suspectTimeout`); otherwise nothing
happens. -/
def suspicionFire (st : MState) (name : String) (changeTime : Nat) (now : Nat) : MState :=
  match lookupA st.nodeMap name with
  | none => st
  | some state =>
    if state.State = StateSuspect ∧ state.StateChange = changeTime then
      deadNode st ⟨state.Incarnation, state.Name⟩ now
    else st

/-! ## Probe engine: `resetNodes` and `probe` -/

/-- Is the record stored for `n` in state Dead?  Reads through the
shared record in the map (a name absent from the map, which cannot occur
when the table is coherent, reads as not dead). -/
def isDeadIn (mp : List (String × NodeState)) (n : String) : Bool :=
  match lookupA mp n with
  | some v => v.State == StateDead
  | none => false

/-- Modelled from the spec: `shuffleNodes` (in the repository's
`util.go`, which is not part of the provided sources) uniformly shuffles
the live records.  The shuffle is embedded as a pick-and-remove
permutation driven by the explicit randomness oracle `rand`; every
permutation is reachable for a suitable oracle. -/
def shuffleNodes (rand : List Nat) (l : List String) : List String :=
  match rand with
  | [] => l
  | r :: rs =>
    match l with
    | [] => []
    | x :: xs =>
      let i := r % (x :: xs).length
      (x :: xs).getD i "" :: shuffleNodes rs ((x :: xs).eraseIdx i)

/-- Modelled from the spec: `moveDeadNodes` (in the repository's
`util.go`, not part of the provided sources) partitions the sequence so
that live records precede Dead records and returns the index of the
first Dead record; relative order inside the partitions is not
specified, so the stable partition is used. -/
def moveDeadNodes (mp : List (String × NodeState)) (nodes : List String) :
    List String × Nat :=
  let lives := nodes.filter (fun n => !(isDeadIn mp n))
  let deads := nodes.filter (fun n => isDeadIn mp n)
  (lives ++ deads, lives.length)

/-- `resetNodes`: partition out the dead records, deregister each dead
record's name from the map, trim the sequence to the live prefix and
shuffle it.  `rand` drives the (spec-modelled) shuffle. -/
def resetNodes (rand : List Nat) (st : MState) : MState :=
  let (part, deadIdx) := moveDeadNodes st.nodeMap st.nodes
  let deadTail := part.drop deadIdx
  let mp := deadTail.foldl (fun m n => eraseA m n) st.nodeMap
  { st with nodeMap := mp, nodes := shuffleNodes rand (part.take deadIdx) }

/-- The wrap-around handling in `probe`: call `resetNodes` and set
`probeIndex` back to `0`. -/
def probeWrap (rand : List Nat) (st : MState) : MState :=
  { resetNodes rand st with probeIndex := 0 }

/-- The body of `probe`'s `goto START` loop.  Returns the state after
the tick together with the name of the node handed to `probeNode`, if
any.  `fuel` bounds the recursion; `probe` passes `len(nodes) + 1`,
which suffices because `numCheck` grows by one per iteration while the
sequence never grows, so the guard `numCheck ≥ len(nodes)` stops the
loop first. -/
def probeLoop (fuel : Nat) (st : MState) (numCheck : Nat) (rand : List Nat) :
    MState × Option String :=
  match fuel with
  | 0 => (st, none)
  | fuel + 1 =>
    -- make sure we don't wrap around infinitely
    if numCheck ≥ st.nodes.length then (st, none)
    -- handle the wrap around case
    else if st.probeIndex ≥ st.nodes.length then
      probeLoop fuel (probeWrap rand st) (numCheck + 1) rand
    else
      let name := st.nodes.getD st.probeIndex ""
      let skip : Bool :=
        if name = st.config.Name then true
        else
          match lookupA st.nodeMap name with
          | some v => v.State == StateDead
          | none => true
      if skip then
        probeLoop fuel { st with probeIndex := st.probeIndex + 1 } (numCheck + 1) rand
      else
        -- probe the specific node: `m.probeNode(node)`; the network
        -- side of probeNode is outside the node-table model, so the
        -- chosen target is returned.  Note the source does not advance
        -- `probeIndex` here.
        (st, some name)

/-- `probe`: one probe tick. -/
def probe (rand : List Nat) (st : MState) : MState × Option String :=
  probeLoop (st.nodes.length + 1) st 0 rand

/-! ## Scheduler (`schedule`) -/

/-- The three periodic activities. -/
inductive Activity where
  | probeA
  | pushPullA
  | gossipA
  deriving DecidableEq

/-- `schedule`: which tickers are armed, in the order the source
appends them.  The probe ticker is created when `ProbeInterval > 0` and
the push/pull ticker when `PushPullInterval > 0` (each branch passes its
own, therefore positive, interval to `time.NewTicker`).  The gossip
branch tests `GossipNodes > 0` — not `GossipInterval` — and then calls
`time.NewTicker(m.config.GossipInterval)`, which panics on a
non-positive duration; that panic is modelled as `Except.error` (the
unrecovered panic kills the process, so the tickers armed before it
never tick). -/
def schedule (c : Config) : Except String (List Activity) :=
  let ts : List Activity := []
  let ts := if c.ProbeInterval > 0 then ts ++ [Activity.probeA] else ts
  let ts := if c.PushPullInterval > 0 then ts ++ [Activity.pushPullA] else ts
  if c.GossipNodes > 0 then
    if c.GossipInterval > 0 then Except.ok (ts ++ [Activity.gossipA])
    else Except.error "non-positive interval for NewTicker"
  else Except.ok ts

/-! ## Push/pull (`pushPullNode`, `pushPull`) -/

/-- `pushPullNode`: attempt the state exchange with a node.  The result
of `sendAndReceiveState` is supplied as the oracle `recv` (each remote
record paired with the offset/timestamp oracles its merge draws).
Returns the new state, the function's error return value, and the log
lines it emits. -/
def pushPullNode (st : MState)
    (recv : Except String (List (PushNodeState × Nat × Nat))) :
    MState × Option String × List String :=
  match recv with
  | Except.error _ => (st, none, [])
  | Except.ok remote => (mergeState st remote, none, [])

/-- `pushPull`: one push/pull tick.  `chosen` is the node picked by
`kRandomNodes` (whose body lives outside the provided sources), supplied
as an oracle; when `pushPullNode` reports an error the tick logs it. -/
def pushPull (st : MState) (chosen : Option String)
    (recv : Except String (List (PushNodeState × Nat × Nat))) :
    MState × List String :=
  match chosen with
  | none => (st, [])
  | some nm =>
    let (st', err, logs) := pushPullNode st recv
    match err with
    | some e => (st', logs ++ ["ERR Push/Pull with " ++ nm ++ " failed: " ++ e])
    | none => (st', logs)

/-! ## Ack registry -/

/-- The ack registry.  Each registration receives a fresh identifier
`nextRid` (standing for the identity of the `ackHandler` closure and its
timer).  `handlers` is the Go map `ackHandlers` (`seqNo ↦ registration`),
`timers` holds the armed reap timers (`registration ↦ its captured
seqNo`), and `events` records every delivery: `(rid, true)` when
`invokeAckHandler` runs the handler, `(rid, false)` when the reap timer
fires. -/
structure AckState where
  handlers : List (Nat × Nat)
  timers : List (Nat × Nat)
  nextRid : Nat
  events : List (Nat × Bool)
  deriving DecidableEq

def ackInit : AckState := ⟨[], [], 0, []⟩

/-- `setAckChannel` / `setAckHandler`: store a fresh handler under
`seqNo` (overwriting any previous entry, as the Go map assignment does)
and arm its reap timer. -/
def setAck (st : AckState) (seqNo : Nat) : AckState :=
  { handlers := insertA st.handlers seqNo st.nextRid,
    timers := (st.nextRid, seqNo) :: st.timers,
    nextRid := st.nextRid + 1,
    events := st.events }

/-- `invokeAckHandler`: under the lock, read and delete the entry; if
none was registered, return; otherwise stop its reap timer and invoke
the handler. -/
def invokeAckHandler (st : AckState) (seqNo : Nat) : AckState :=
  match lookupA st.handlers seqNo with
  | none => st
  | some rid =>
    { handlers := eraseA st.handlers seqNo,
      timers := eraseA st.timers rid,
      nextRid := st.nextRid,
      events := st.events ++ [(rid, true)] }

/-- The reap timer of registration `rid` fires: this requires the timer
to still be armed (a stopped or already-fired `time.Timer` does not run
its function); the callback deletes the map entry at its captured
sequence number and delivers the timeout. -/
def reapFire (st : AckState) (rid : Nat) : AckState :=
  match lookupA st.timers rid with
  | none => st
  | some seqNo =>
    { handlers := eraseA st.handlers seqNo,
      timers := eraseA st.timers rid,
      nextRid := st.nextRid,
      events := st.events ++ [(rid, false)] }

/-- The operations observable on the ack registry. -/
inductive AckOp where
  | register (seqNo : Nat)
  | invoke (seqNo : Nat)
  | fire (rid : Nat)
  deriving DecidableEq

def ackStep (st : AckState) : AckOp → AckState
  | AckOp.register seqNo => setAck st seqNo
  | AckOp.invoke seqNo => invokeAckHandler st seqNo
  | AckOp.fire rid => reapFire st rid

def runAcks (ops : List AckOp) : AckState :=
  ops.foldl ackStep ackInit

/-- How many deliveries a registration has received in an event log. -/
def countEv (evs : List (Nat × Bool)) (rid : Nat) : Nat :=
  (evs.filter (fun e => e.1 == rid)).length

/-- How many deliveries registration `rid` has received. -/
def countRid (st : AckState) (rid : Nat) : Nat :=
  countEv st.events rid

/-! ## Basic facts about the association-list primitives -/

theorem lookupA_insert_self {κ α : Type} [DecidableEq κ]
    (m : List (κ × α)) (k : κ) (v : α) :
    lookupA (insertA m k v) k = some v := by
  induction m with
  | nil => simp [insertA, lookupA]
  | cons p rest ih =>
    by_cases h : p.1 = k
    · simp [insertA, lookupA, h]
    · simp [insertA, lookupA, h, ih]

theorem lookupA_insert_ne {κ α : Type} [DecidableEq κ]
    (m : List (κ × α)) (k k' : κ) (v : α) (h : k' ≠ k) :
    lookupA (insertA m k v) k' = lookupA m k' := by
  have h2 : ¬ (k = k') := fun hh => h hh.symm
  induction m with
  | nil => simp [insertA, lookupA, h2]
  | cons p rest ih =>
    by_cases hp : p.1 = k
    · subst hp
      simp [insertA, lookupA, h2]
    · simp [insertA, lookupA, hp, ih]

theorem lookupA_erase_self {κ α : Type} [DecidableEq κ]
    (m : List (κ × α)) (k : κ) :
    lookupA (eraseA m k) k = none := by
  induction m with
  | nil => simp [eraseA, lookupA]
  | cons p rest ih =>
    rcases p with ⟨k', v⟩
    by_cases h : k' = k
    · simpa [eraseA, h] using ih
    · simpa [eraseA, lookupA, h] using ih

theorem lookupA_erase_ne {κ α : Type} [DecidableEq κ]
    (m : List (κ × α)) (k k' : κ) (h : k' ≠ k) :
    lookupA (eraseA m k) k' = lookupA m k' := by
  induction m with
  | nil => simp [eraseA]
  | cons p rest ih =>
    rcases p with ⟨q, v⟩
    by_cases hp : q = k
    · subst hp
      have h2 : ¬ (q = k') := fun hh => h hh.symm
      simp [eraseA, lookupA, h2, ih]
    · by_cases hq : q = k'
      · simp [eraseA, lookupA, hp, hq, h]
      · simp [eraseA, lookupA, hp, hq, ih]

theorem lookupA_mem {κ α : Type} [DecidableEq κ]
    (m : List (κ × α)) (k : κ) (v : α) (h : lookupA m k = some v) :
    (k, v) ∈ m := by
  induction m with
  | nil => simp [lookupA] at h
  | cons p rest ih =>
    rcases p with ⟨q, w⟩
    by_cases hp : q = k
    · subst hp
      simp only [lookupA, if_pos] at h
      cases h
      exact List.mem_cons_self _ _
    · simp only [lookupA, hp, if_false] at h
      exact List.mem_cons_of_mem _ (ih h)

theorem mem_insertA {κ α : Type} [DecidableEq κ]
    (m : List (κ × α)) (k : κ) (v : α) (p : κ × α) (h : p ∈ insertA m k v) :
    p = (k, v) ∨ p ∈ m := by
  induction m with
  | nil => simpa [insertA] using h
  | cons q rest ih =>
    by_cases hq : q.1 = k
    · simp only [insertA, hq, if_pos] at h
      rcases List.mem_cons.1 h with h | h
      · exact Or.inl h
      · exact Or.inr (List.mem_cons_of_mem _ h)
    · simp only [insertA, hq, if_neg, if_false] at h
      rcases List.mem_cons.1 h with h | h
      · exact Or.inr (List.mem_cons.2 (Or.inl h))
      · rcases ih h with h | h
        · exact Or.inl h
        · exact Or.inr (List.mem_cons_of_mem _ h)

theorem length_insertA_of_none {κ α : Type} [DecidableEq κ]
    (m : List (κ × α)) (k : κ) (v : α) (h : lookupA m k = none) :
    (insertA m k v).length = m.length + 1 := by
  induction m with
  | nil => simp [insertA]
  | cons p rest ih =>
    by_cases hp : p.1 = k
    · simp [lookupA, hp] at h
    · simp only [lookupA, hp, if_neg, if_false] at h
      simp [insertA, hp, ih h]

/-! ## Invariants of the node table -/

/-- The incarnation currently stored for a name (if known). -/
def incOf (st : MState) (X : String) : Option Nat :=
  (lookupA st.nodeMap X).map NodeState.Incarnation

/-- "Not decreased": going from view `a` to view `b`, a known
incarnation stays known and does not shrink. -/
def IncLe (a b : Option Nat) : Prop :=
  ∀ v, a = some v → ∃ w, b = some w ∧ v ≤ w

theorem IncLe.rfl (a : Option Nat) : IncLe a a :=
  fun v hv => ⟨v, hv, Nat.le_refl v⟩

theorem IncLe.of_eq {a b : Option Nat} (h : a = b) : IncLe a b :=
  fun v hv => ⟨v, h ▸ hv, Nat.le_refl v⟩

theorem IncLe.trans {a b c : Option Nat} (h1 : IncLe a b) (h2 : IncLe b c) :
    IncLe a c := by
  intro v hv
  obtain ⟨w, hw, hvw⟩ := h1 v hv
  obtain ⟨u, hu, hwu⟩ := h2 w hw
  exact ⟨u, hu, Nat.le_trans hvw hwu⟩

/-- Every record is stored under its own name (holds in every reachable
state: records are created with `Name` equal to their map key and no
transition rewrites `Name`). -/
def NamesConsistent (st : MState) : Prop :=
  ∀ p ∈ st.nodeMap, p.2.Name = p.1

/-- The local node's own record is never in state Suspect (invariant I5:
`suspectNode` only marks records whose name differs from ours). -/
def SelfNotSuspect (st : MState) : Prop :=
  ∀ p ∈ st.nodeMap, p.1 = st.config.Name → p.2.State ≠ StateSuspect

instance decNamesConsistent (st : MState) : Decidable (NamesConsistent st) :=
  inferInstanceAs (Decidable (∀ p ∈ st.nodeMap, p.2.Name = p.1))

instance decSelfNotSuspect (st : MState) : Decidable (SelfNotSuspect st) :=
  inferInstanceAs
    (Decidable (∀ p ∈ st.nodeMap, p.1 = st.config.Name → p.2.State ≠ StateSuspect))

theorem aliveNodeUpdate_config (st : MState) (a : Alive) (now : Nat) :
    (aliveNodeUpdate st a now).config = st.config := by
  simp only [aliveNodeUpdate]
  repeat' split
  all_goals rfl

theorem aliveNode_config (st : MState) (a : Alive) (offset now : Nat) :
    (aliveNode st a offset now).config = st.config := by
  simp only [aliveNode]
  split
  · rw [aliveNodeUpdate_config]
  · rw [aliveNodeUpdate_config]

theorem suspectNode_config (st : MState) (s : Suspect) (now : Nat) :
    (suspectNode st s now).config = st.config := by
  simp only [suspectNode]
  repeat' split
  all_goals rfl

theorem deadNode_config (st : MState) (d : Dead) (now : Nat) :
    (deadNode st d now).config = st.config := by
  simp only [deadNode]
  repeat' split
  all_goals rfl

theorem applyRemote_config (st : MState) (r : PushNodeState) (offset now : Nat) :
    (applyRemote st r offset now).config = st.config := by
  simp only [applyRemote]
  repeat' split
  all_goals
    simp [aliveNode_config, suspectNode_config, deadNode_config]

theorem applyEvent_config (st : MState) (e : Event) :
    (applyEvent st e).config = st.config := by
  cases e with
  | alive a offset now => exact aliveNode_config st a offset now
  | suspect s now => exact suspectNode_config st s now
  | dead d now => exact deadNode_config st d now
  | merge remote =>
    show (mergeState st remote).config = st.config
    induction remote generalizing st with
    | nil => rfl
    | cons r rest ih =>
      simp only [mergeState, List.foldl_cons] at *
      rw [ih, applyRemote_config]

theorem run_config (st : MState) (evs : List Event) :
    (run st evs).config = st.config := by
  induction evs generalizing st with
  | nil => rfl
  | cons e rest ih =>
    simp only [run, List.foldl_cons] at *
    rw [ih, applyEvent_config]

/-! ## Branch equations of the state machine -/

theorem suspectNode_none (st : MState) (s : Suspect) (now : Nat)
    (h : lookupA st.nodeMap s.Node = none) :
    suspectNode st s now = st := by
  simp only [suspectNode, h]

theorem suspectNode_oldInc (st : MState) (s : Suspect) (now : Nat) (v : NodeState)
    (h1 : lookupA st.nodeMap s.Node = some v)
    (h2 : s.Incarnation < v.Incarnation) :
    suspectNode st s now = st := by
  simp only [suspectNode, h1, if_pos h2]

theorem suspectNode_nonAlive (st : MState) (s : Suspect) (now : Nat) (v : NodeState)
    (h1 : lookupA st.nodeMap s.Node = some v)
    (h2 : v.State ≠ StateAlive) :
    suspectNode st s now = st := by
  simp only [suspectNode, h1]
  by_cases h : s.Incarnation < v.Incarnation
  · simp [h]
  · simp [h, h2]

theorem suspectNode_refute (st : MState) (s : Suspect) (now : Nat) (v : NodeState)
    (h1 : lookupA st.nodeMap s.Node = some v)
    (h2 : ¬ s.Incarnation < v.Incarnation)
    (h3 : v.State = StateAlive)
    (h4 : v.Name = st.config.Name) :
    suspectNode st s now =
      { st with
        incarnation := (st.incarnation + 1) % U32,
        broadcasts := st.broadcasts ++
          [Broadcast.aliveMsg ⟨(st.incarnation + 1) % U32, v.Name, v.Addr, v.Meta⟩],
        nodeMap := insertA st.nodeMap s.Node
          { v with Incarnation := (st.incarnation + 1) % U32 } } := by
  simp [suspectNode, h1, h2, h3, h4, nextIncarnation]

theorem suspectNode_mark (st : MState) (s : Suspect) (now : Nat) (v : NodeState)
    (h1 : lookupA st.nodeMap s.Node = some v)
    (h2 : ¬ s.Incarnation < v.Incarnation)
    (h3 : v.State = StateAlive)
    (h4 : v.Name ≠ st.config.Name) :
    suspectNode st s now =
      { st with
        broadcasts := st.broadcasts ++ [Broadcast.suspectMsg s],
        nodeMap := insertA st.nodeMap s.Node
          { v with Incarnation := s.Incarnation, State := StateSuspect,
                   StateChange := now } } := by
  simp [suspectNode, h1, h2, h3, h4]

theorem deadNode_none (st : MState) (d : Dead) (now : Nat)
    (h : lookupA st.nodeMap d.Node = none) :
    deadNode st d now = st := by
  simp only [deadNode, h]

theorem deadNode_oldInc (st : MState) (d : Dead) (now : Nat) (v : NodeState)
    (h1 : lookupA st.nodeMap d.Node = some v)
    (h2 : d.Incarnation < v.Incarnation) :
    deadNode st d now = st := by
  simp only [deadNode, h1, if_pos h2]

theorem deadNode_alreadyDead (st : MState) (d : Dead) (now : Nat) (v : NodeState)
    (h1 : lookupA st.nodeMap d.Node = some v)
    (h2 : v.State = StateDead) :
    deadNode st d now = st := by
  simp only [deadNode, h1]
  by_cases h : d.Incarnation < v.Incarnation
  · simp [h]
  · simp [h, h2]

theorem deadNode_refute (st : MState) (d : Dead) (now : Nat) (v : NodeState)
    (h1 : lookupA st.nodeMap d.Node = some v)
    (h2 : ¬ d.Incarnation < v.Incarnation)
    (h3 : v.State ≠ StateDead)
    (h4 : v.Name = st.config.Name)
    (h5 : st.leave = false) :
    deadNode st d now =
      { st with
        incarnation := (st.incarnation + 1) % U32,
        broadcasts := st.broadcasts ++
          [Broadcast.aliveMsg ⟨(st.incarnation + 1) % U32, v.Name, v.Addr, v.Meta⟩],
        nodeMap := insertA st.nodeMap d.Node
          { v with Incarnation := (st.incarnation + 1) % U32 } } := by
  simp [deadNode, h1, h2, h3, h4, h5, nextIncarnation]

theorem deadNode_mark (st : MState) (d : Dead) (now : Nat) (v : NodeState)
    (h1 : lookupA st.nodeMap d.Node = some v)
    (h2 : ¬ d.Incarnation < v.Incarnation)
    (h3 : v.State ≠ StateDead)
    (h4 : ¬ (v.Name = st.config.Name ∧ st.leave = false)) :
    deadNode st d now =
      { st with
        broadcasts := st.broadcasts ++ [Broadcast.deadMsg d],
        nodeMap := insertA st.nodeMap d.Node
          { v with Incarnation := d.Incarnation, State := StateDead,
                   StateChange := now },
        leaves := st.leaves ++
          [NodeState.toNode
            { v with Incarnation := d.Incarnation, State := StateDead,
                     StateChange := now }] } := by
  simp [deadNode, h1, h2, h3, h4]

theorem aliveNodeUpdate_none (st : MState) (a : Alive) (now : Nat)
    (h : lookupA st.nodeMap a.Node = none) :
    aliveNodeUpdate st a now = st := by
  simp only [aliveNodeUpdate, h]

theorem aliveNodeUpdate_old (st : MState) (a : Alive) (now : Nat) (v : NodeState)
    (h1 : lookupA st.nodeMap a.Node = some v)
    (h2 : a.Incarnation ≤ v.Incarnation) :
    aliveNodeUpdate st a now = st := by
  simp only [aliveNodeUpdate, h1, if_pos h2]

theorem aliveNodeUpdate_fromAlive (st : MState) (a : Alive) (now : Nat) (v : NodeState)
    (h1 : lookupA st.nodeMap a.Node = some v)
    (h2 : ¬ a.Incarnation ≤ v.Incarnation)
    (h3 : v.State = StateAlive) :
    aliveNodeUpdate st a now =
      { st with
        broadcasts := st.broadcasts ++ [Broadcast.aliveMsg a],
        nodeMap := insertA st.nodeMap a.Node { v with Incarnation := a.Incarnation } } := by
  have hd : v.State ≠ StateDead := by
    rw [h3]
    decide
  simp [aliveNodeUpdate, h1, h2, h3, hd, StateAlive, StateDead]

theorem aliveNodeUpdate_fromSuspect (st : MState) (a : Alive) (now : Nat) (v : NodeState)
    (h1 : lookupA st.nodeMap a.Node = some v)
    (h2 : ¬ a.Incarnation ≤ v.Incarnation)
    (h3 : v.State ≠ StateAlive)
    (h4 : v.State ≠ StateDead) :
    aliveNodeUpdate st a now =
      { st with
        broadcasts := st.broadcasts ++ [Broadcast.aliveMsg a],
        nodeMap := insertA st.nodeMap a.Node
          { v with Incarnation := a.Incarnation, State := StateAlive,
                   StateChange := now } } := by
  simp [aliveNodeUpdate, h1, h2, h3, h4]

theorem aliveNodeUpdate_fromDead (st : MState) (a : Alive) (now : Nat) (v : NodeState)
    (h1 : lookupA st.nodeMap a.Node = some v)
    (h2 : ¬ a.Incarnation ≤ v.Incarnation)
    (h3 : v.State = StateDead) :
    aliveNodeUpdate st a now =
      { st with
        broadcasts := st.broadcasts ++ [Broadcast.aliveMsg a],
        nodeMap := insertA st.nodeMap a.Node
          { v with Incarnation := a.Incarnation, State := StateAlive,
                   StateChange := now },
        joins := st.joins ++
          [NodeState.toNode
            { v with Incarnation := a.Incarnation, State := StateAlive,
                     StateChange := now }] } := by
  have h4 : v.State ≠ StateAlive := by
    rw [h3]
    decide
  simp [aliveNodeUpdate, h1, h2, h3, h4, StateAlive, StateDead]

theorem aliveNode_known (st : MState) (a : Alive) (offset now : Nat) (v : NodeState)
    (h : lookupA st.nodeMap a.Node = some v) :
    aliveNode st a offset now = aliveNodeUpdate st a now := by
  simp only [aliveNode, h]

theorem aliveNode_new (st : MState) (a : Alive) (offset now : Nat)
    (h : lookupA st.nodeMap a.Node = none) :
    aliveNode st a offset now =
      aliveNodeUpdate
        { st with
          nodeMap := insertA st.nodeMap a.Node
            ⟨a.Node, a.Addr, a.Meta, 0, StateDead, 0⟩,
          nodes := swapL (st.nodes ++ [a.Node]) offset st.nodes.length }
        a now := by
  simp only [aliveNode, h]

/-! ## Incarnation monotonicity of the individual transitions -/

theorem incOf_lookup (st : MState) (X : String) (v : NodeState)
    (h : lookupA st.nodeMap X = some v) : incOf st X = some v.Incarnation := by
  simp [incOf, h]

theorem aliveNodeUpdate_mono (st : MState) (a : Alive) (now : Nat) (X : String) :
    IncLe (incOf st X) (incOf (aliveNodeUpdate st a now) X) := by
  cases h1 : lookupA st.nodeMap a.Node with
  | none => exact IncLe.of_eq (by rw [aliveNodeUpdate_none st a now h1])
  | some v =>
    by_cases h2 : a.Incarnation ≤ v.Incarnation
    · exact IncLe.of_eq (by rw [aliveNodeUpdate_old st a now v h1 h2])
    · by_cases hk : X = a.Node
      · subst hk
        intro w hw
        rw [incOf_lookup st a.Node v h1] at hw
        cases hw
        refine ⟨a.Incarnation, ?_, Nat.le_of_lt (Nat.lt_of_not_le h2)⟩
        by_cases h3 : v.State = StateAlive
        · rw [aliveNodeUpdate_fromAlive st a now v h1 h2 h3]
          simp [incOf, lookupA_insert_self]
        · by_cases h4 : v.State = StateDead
          · rw [aliveNodeUpdate_fromDead st a now v h1 h2 h4]
            simp [incOf, lookupA_insert_self]
          · rw [aliveNodeUpdate_fromSuspect st a now v h1 h2 h3 h4]
            simp [incOf, lookupA_insert_self]
      · refine IncLe.of_eq ?_
        by_cases h3 : v.State = StateAlive
        · rw [aliveNodeUpdate_fromAlive st a now v h1 h2 h3]
          simp [incOf, lookupA_insert_ne _ _ _ _ hk]
        · by_cases h4 : v.State = StateDead
          · rw [aliveNodeUpdate_fromDead st a now v h1 h2 h4]
            simp [incOf, lookupA_insert_ne _ _ _ _ hk]
          · rw [aliveNodeUpdate_fromSuspect st a now v h1 h2 h3 h4]
            simp [incOf, lookupA_insert_ne _ _ _ _ hk]

theorem aliveNode_mono (st : MState) (a : Alive) (offset now : Nat) (X : String) :
    IncLe (incOf st X) (incOf (aliveNode st a offset now) X) := by
  cases h1 : lookupA st.nodeMap a.Node with
  | some v =>
    rw [aliveNode_known st a offset now v h1]
    exact aliveNodeUpdate_mono st a now X
  | none =>
    rw [aliveNode_new st a offset now h1]
    refine IncLe.trans (b := incOf
      { st with
        nodeMap := insertA st.nodeMap a.Node ⟨a.Node, a.Addr, a.Meta, 0, StateDead, 0⟩,
        nodes := swapL (st.nodes ++ [a.Node]) offset st.nodes.length } X)
      ?_ (aliveNodeUpdate_mono _ a now X)
    by_cases hk : X = a.Node
    · subst hk
      intro w hw
      rw [incOf, h1] at hw
      simp at hw
    · exact IncLe.of_eq (by simp [incOf, lookupA_insert_ne _ _ _ _ hk])

theorem suspectNode_mono (st : MState) (s : Suspect) (now : Nat) (X : String)
    (hnc : NamesConsistent st) (hX : X ≠ st.config.Name) :
    IncLe (incOf st X) (incOf (suspectNode st s now) X) := by
  cases h1 : lookupA st.nodeMap s.Node with
  | none => exact IncLe.of_eq (by rw [suspectNode_none st s now h1])
  | some v =>
    have hvn : v.Name = s.Node := hnc ⟨s.Node, v⟩ (lookupA_mem _ _ _ h1)
    by_cases h2 : s.Incarnation < v.Incarnation
    · exact IncLe.of_eq (by rw [suspectNode_oldInc st s now v h1 h2])
    · by_cases h3 : v.State = StateAlive
      · by_cases h4 : v.Name = st.config.Name
        · have hk : X ≠ s.Node := by
            rw [← hvn, h4]
            exact hX
          rw [suspectNode_refute st s now v h1 h2 h3 h4]
          exact IncLe.of_eq (by simp [incOf, lookupA_insert_ne _ _ _ _ hk])
        · rw [suspectNode_mark st s now v h1 h2 h3 h4]
          by_cases hk : X = s.Node
          · subst hk
            intro w hw
            rw [incOf_lookup st s.Node v h1] at hw
            cases hw
            refine ⟨s.Incarnation, ?_, Nat.le_of_not_lt h2⟩
            simp [incOf, lookupA_insert_self]
          · exact IncLe.of_eq (by simp [incOf, lookupA_insert_ne _ _ _ _ hk])
      · exact IncLe.of_eq (by rw [suspectNode_nonAlive st s now v h1 h3])

theorem deadNode_mono (st : MState) (d : Dead) (now : Nat) (X : String)
    (hnc : NamesConsistent st) (hX : X ≠ st.config.Name) :
    IncLe (incOf st X) (incOf (deadNode st d now) X) := by
  cases h1 : lookupA st.nodeMap d.Node with
  | none => exact IncLe.of_eq (by rw [deadNode_none st d now h1])
  | some v =>
    have hvn : v.Name = d.Node := hnc ⟨d.Node, v⟩ (lookupA_mem _ _ _ h1)
    by_cases h2 : d.Incarnation < v.Incarnation
    · exact IncLe.of_eq (by rw [deadNode_oldInc st d now v h1 h2])
    · by_cases h3 : v.State = StateDead
      · exact IncLe.of_eq (by rw [deadNode_alreadyDead st d now v h1 h3])
      · by_cases h4 : v.Name = st.config.Name ∧ st.leave = false
        · have hk : X ≠ d.Node := by
            rw [← hvn, h4.1]
            exact hX
          rw [deadNode_refute st d now v h1 h2 h3 h4.1 h4.2]
          exact IncLe.of_eq (by simp [incOf, lookupA_insert_ne _ _ _ _ hk])
        · rw [deadNode_mark st d now v h1 h2 h3 h4]
          by_cases hk : X = d.Node
          · subst hk
            intro w hw
            rw [incOf_lookup st d.Node v h1] at hw
            cases hw
            refine ⟨d.Incarnation, ?_, Nat.le_of_not_lt h2⟩
            simp [incOf, lookupA_insert_self]
          · exact IncLe.of_eq (by simp [incOf, lookupA_insert_ne _ _ _ _ hk])

/-! ## Preservation of the table invariants -/

theorem nc_insertA {m : List (String × NodeState)} {k : String} {v : NodeState}
    (h : ∀ p ∈ m, p.2.Name = p.1) (hv : v.Name = k) :
    ∀ p ∈ insertA m k v, p.2.Name = p.1 := by
  intro p hp
  rcases mem_insertA _ _ _ _ hp with rfl | hp2
  · exact hv
  · exact h p hp2

theorem sns_insertA {m : List (String × NodeState)} {k : String} {v : NodeState}
    {cfgName : String}
    (h : ∀ p ∈ m, p.1 = cfgName → p.2.State ≠ StateSuspect)
    (hv : k = cfgName → v.State ≠ StateSuspect) :
    ∀ p ∈ insertA m k v, p.1 = cfgName → p.2.State ≠ StateSuspect := by
  intro p hp hpc
  rcases mem_insertA _ _ _ _ hp with rfl | hp2
  · exact hv hpc
  · exact h p hp2 hpc

theorem suspectNode_namesConsistent (st : MState) (s : Suspect) (now : Nat)
    (h : NamesConsistent st) : NamesConsistent (suspectNode st s now) := by
  cases h1 : lookupA st.nodeMap s.Node with
  | none => rw [suspectNode_none st s now h1]; exact h
  | some v =>
    have hvn : v.Name = s.Node := h ⟨s.Node, v⟩ (lookupA_mem _ _ _ h1)
    by_cases h2 : s.Incarnation < v.Incarnation
    · rw [suspectNode_oldInc st s now v h1 h2]; exact h
    · by_cases h3 : v.State = StateAlive
      · by_cases h4 : v.Name = st.config.Name
        · rw [suspectNode_refute st s now v h1 h2 h3 h4]
          exact nc_insertA h hvn
        · rw [suspectNode_mark st s now v h1 h2 h3 h4]
          exact nc_insertA h hvn
      · rw [suspectNode_nonAlive st s now v h1 h3]; exact h

theorem deadNode_namesConsistent (st : MState) (d : Dead) (now : Nat)
    (h : NamesConsistent st) : NamesConsistent (deadNode st d now) := by
  cases h1 : lookupA st.nodeMap d.Node with
  | none => rw [deadNode_none st d now h1]; exact h
  | some v =>
    have hvn : v.Name = d.Node := h ⟨d.Node, v⟩ (lookupA_mem _ _ _ h1)
    by_cases h2 : d.Incarnation < v.Incarnation
    · rw [deadNode_oldInc st d now v h1 h2]; exact h
    · by_cases h3 : v.State = StateDead
      · rw [deadNode_alreadyDead st d now v h1 h3]; exact h
      · by_cases h4 : v.Name = st.config.Name ∧ st.leave = false
        · rw [deadNode_refute st d now v h1 h2 h3 h4.1 h4.2]
          exact nc_insertA h hvn
        · rw [deadNode_mark st d now v h1 h2 h3 h4]
          exact nc_insertA h hvn

theorem aliveNodeUpdate_namesConsistent (st : MState) (a : Alive) (now : Nat)
    (h : NamesConsistent st) : NamesConsistent (aliveNodeUpdate st a now) := by
  cases h1 : lookupA st.nodeMap a.Node with
  | none => rw [aliveNodeUpdate_none st a now h1]; exact h
  | some v =>
    have hvn : v.Name = a.Node := h ⟨a.Node, v⟩ (lookupA_mem _ _ _ h1)
    by_cases h2 : a.Incarnation ≤ v.Incarnation
    · rw [aliveNodeUpdate_old st a now v h1 h2]; exact h
    · by_cases h3 : v.State = StateAlive
      · rw [aliveNodeUpdate_fromAlive st a now v h1 h2 h3]
        exact nc_insertA h hvn
      · by_cases h4 : v.State = StateDead
        · rw [aliveNodeUpdate_fromDead st a now v h1 h2 h4]
          exact nc_insertA h hvn
        · rw [aliveNodeUpdate_fromSuspect st a now v h1 h2 h3 h4]
          exact nc_insertA h hvn

theorem aliveNode_namesConsistent (st : MState) (a : Alive) (offset now : Nat)
    (h : NamesConsistent st) : NamesConsistent (aliveNode st a offset now) := by
  cases h1 : lookupA st.nodeMap a.Node with
  | some v =>
    rw [aliveNode_known st a offset now v h1]
    exact aliveNodeUpdate_namesConsistent st a now h
  | none =>
    rw [aliveNode_new st a offset now h1]
    exact aliveNodeUpdate_namesConsistent _ a now (nc_insertA h rfl)

theorem suspectNode_selfNotSuspect (st : MState) (s : Suspect) (now : Nat)
    (hnc : NamesConsistent st) (h : SelfNotSuspect st) :
    SelfNotSuspect (suspectNode st s now) := by
  cases h1 : lookupA st.nodeMap s.Node with
  | none => rw [suspectNode_none st s now h1]; exact h
  | some v =>
    have hvn : v.Name = s.Node := hnc ⟨s.Node, v⟩ (lookupA_mem _ _ _ h1)
    by_cases h2 : s.Incarnation < v.Incarnation
    · rw [suspectNode_oldInc st s now v h1 h2]; exact h
    · by_cases h3 : v.State = StateAlive
      · by_cases h4 : v.Name = st.config.Name
        · rw [suspectNode_refute st s now v h1 h2 h3 h4]
          refine sns_insertA h ?_
          intro _ hcontra
          simp [h3, StateAlive, StateSuspect] at hcontra
        · rw [suspectNode_mark st s now v h1 h2 h3 h4]
          refine sns_insertA h ?_
          intro hk
          exact absurd (hvn ▸ hk) h4
      · rw [suspectNode_nonAlive st s now v h1 h3]; exact h

theorem deadNode_selfNotSuspect (st : MState) (d : Dead) (now : Nat)
    (h : SelfNotSuspect st) : SelfNotSuspect (deadNode st d now) := by
  cases h1 : lookupA st.nodeMap d.Node with
  | none => rw [deadNode_none st d now h1]; exact h
  | some v =>
    by_cases h2 : d.Incarnation < v.Incarnation
    · rw [deadNode_oldInc st d now v h1 h2]; exact h
    · by_cases h3 : v.State = StateDead
      · rw [deadNode_alreadyDead st d now v h1 h3]; exact h
      · by_cases h4 : v.Name = st.config.Name ∧ st.leave = false
        · rw [deadNode_refute st d now v h1 h2 h3 h4.1 h4.2]
          refine sns_insertA h ?_
          intro hk
          exact h ⟨d.Node, v⟩ (lookupA_mem _ _ _ h1) hk
        · rw [deadNode_mark st d now v h1 h2 h3 h4]
          refine sns_insertA h ?_
          intro _ hcontra
          simp [StateAlive, StateSuspect, StateDead] at hcontra

theorem aliveNodeUpdate_selfNotSuspect (st : MState) (a : Alive) (now : Nat)
    (h : SelfNotSuspect st) : SelfNotSuspect (aliveNodeUpdate st a now) := by
  cases h1 : lookupA st.nodeMap a.Node with
  | none => rw [aliveNodeUpdate_none st a now h1]; exact h
  | some v =>
    by_cases h2 : a.Incarnation ≤ v.Incarnation
    · rw [aliveNodeUpdate_old st a now v h1 h2]; exact h
    · have halive : ∀ w : NodeState, w.State = StateAlive →
        ∀ hk : True, w.State ≠ StateSuspect := by
        intro w hw _
        rw [hw]
        decide
      by_cases h3 : v.State = StateAlive
      · rw [aliveNodeUpdate_fromAlive st a now v h1 h2 h3]
        refine sns_insertA h ?_
        intro _
        exact h ⟨a.Node, v⟩ (lookupA_mem _ _ _ h1) ‹a.Node = st.config.Name›
      · by_cases h4 : v.State = StateDead
        · rw [aliveNodeUpdate_fromDead st a now v h1 h2 h4]
          refine sns_insertA h ?_
          intro _ hcontra
          simp [StateAlive, StateSuspect, StateDead] at hcontra
        · rw [aliveNodeUpdate_fromSuspect st a now v h1 h2 h3 h4]
          refine sns_insertA h ?_
          intro _ hcontra
          simp [StateAlive, StateSuspect, StateDead] at hcontra

theorem aliveNode_selfNotSuspect (st : MState) (a : Alive) (offset now : Nat)
    (h : SelfNotSuspect st) : SelfNotSuspect (aliveNode st a offset now) := by
  cases h1 : lookupA st.nodeMap a.Node with
  | some v =>
    rw [aliveNode_known st a offset now v h1]
    exact aliveNodeUpdate_selfNotSuspect st a now h
  | none =>
    rw [aliveNode_new st a offset now h1]
    refine aliveNodeUpdate_selfNotSuspect _ a now ?_
    refine sns_insertA h ?_
    intro _ hcontra
    simp [StateSuspect, StateDead] at hcontra

theorem applyRemote_namesConsistent (st : MState) (r : PushNodeState)
    (offset now : Nat) (h : NamesConsistent st) :
    NamesConsistent (applyRemote st r offset now) := by
  simp only [applyRemote]
  repeat' split
  all_goals first
    | exact h
    | exact aliveNode_namesConsistent st _ offset now h
    | exact suspectNode_namesConsistent st _ now h
    | exact deadNode_namesConsistent st _ now h

theorem applyRemote_selfNotSuspect (st : MState) (r : PushNodeState)
    (offset now : Nat) (hnc : NamesConsistent st) (h : SelfNotSuspect st) :
    SelfNotSuspect (applyRemote st r offset now) := by
  simp only [applyRemote]
  repeat' split
  all_goals first
    | exact h
    | exact aliveNode_selfNotSuspect st _ offset now h
    | exact suspectNode_selfNotSuspect st _ now hnc h
    | exact deadNode_selfNotSuspect st _ now h

theorem applyEvent_namesConsistent (st : MState) (e : Event)
    (h : NamesConsistent st) : NamesConsistent (applyEvent st e) := by
  cases e with
  | alive a offset now => exact aliveNode_namesConsistent st a offset now h
  | suspect s now => exact suspectNode_namesConsistent st s now h
  | dead d now => exact deadNode_namesConsistent st d now h
  | merge remote =>
    show NamesConsistent (mergeState st remote)
    induction remote generalizing st with
    | nil => exact h
    | cons r rest ih =>
      simp only [mergeState, List.foldl_cons] at *
      exact ih _ (applyRemote_namesConsistent st _ _ _ h)

theorem applyEvent_selfNotSuspect (st : MState) (e : Event)
    (hnc : NamesConsistent st) (h : SelfNotSuspect st) :
    SelfNotSuspect (applyEvent st e) := by
  cases e with
  | alive a offset now => exact aliveNode_selfNotSuspect st a offset now h
  | suspect s now => exact suspectNode_selfNotSuspect st s now hnc h
  | dead d now => exact deadNode_selfNotSuspect st d now h
  | merge remote =>
    show SelfNotSuspect (mergeState st remote)
    induction remote generalizing st with
    | nil => exact h
    | cons r rest ih =>
      simp only [mergeState, List.foldl_cons] at *
      exact ih _ (applyRemote_namesConsistent st _ _ _ hnc)
        (applyRemote_selfNotSuspect st _ _ _ hnc h)

theorem run_namesConsistent (st : MState) (evs : List Event)
    (h : NamesConsistent st) : NamesConsistent (run st evs) := by
  induction evs generalizing st with
  | nil => exact h
  | cons e rest ih =>
    simp only [run, List.foldl_cons] at *
    exact ih _ (applyEvent_namesConsistent st e h)

theorem run_selfNotSuspect (st : MState) (evs : List Event)
    (hnc : NamesConsistent st) (h : SelfNotSuspect st) :
    SelfNotSuspect (run st evs) := by
  induction evs generalizing st with
  | nil => exact h
  | cons e rest ih =>
    simp only [run, List.foldl_cons] at *
    exact ih _ (applyEvent_namesConsistent st e hnc)
      (applyEvent_selfNotSuspect st e hnc h)

theorem applyRemote_mono (st : MState) (r : PushNodeState) (offset now : Nat)
    (X : String) (hnc : NamesConsistent st) (hX : X ≠ st.config.Name) :
    IncLe (incOf st X) (incOf (applyRemote st r offset now) X) := by
  simp only [applyRemote]
  repeat' split
  all_goals first
    | exact IncLe.rfl _
    | exact aliveNode_mono st _ offset now X
    | exact suspectNode_mono st _ now X hnc hX
    | exact deadNode_mono st _ now X hnc hX

theorem applyEvent_mono (st : MState) (e : Event) (X : String)
    (hnc : NamesConsistent st) (hX : X ≠ st.config.Name) :
    IncLe (incOf st X) (incOf (applyEvent st e) X) := by
  cases e with
  | alive a offset now => exact aliveNode_mono st a offset now X
  | suspect s now => exact suspectNode_mono st s now X hnc hX
  | dead d now => exact deadNode_mono st d now X hnc hX
  | merge remote =>
    show IncLe (incOf st X) (incOf (mergeState st remote) X)
    induction remote generalizing st with
    | nil => exact IncLe.rfl _
    | cons r rest ih =>
      simp only [mergeState, List.foldl_cons] at *
      refine IncLe.trans (applyRemote_mono st r.1 r.2.1 r.2.2 X hnc hX) ?_
      refine ih _ (applyRemote_namesConsistent st _ _ _ hnc) ?_
      rw [applyRemote_config]
      exact hX

theorem run_mono (st : MState) (evs : List Event) (X : String)
    (hnc : NamesConsistent st) (hX : X ≠ st.config.Name) :
    IncLe (incOf st X) (incOf (run st evs) X) := by
  induction evs generalizing st with
  | nil => exact IncLe.rfl _
  | cons e rest ih =>
    simp only [run, List.foldl_cons] at *
    refine IncLe.trans (applyEvent_mono st e X hnc hX) ?_
    refine ih _ (applyEvent_namesConsistent st e hnc) ?_
    rw [applyEvent_config]
    exact hX

/-! ## Claim C2: incarnation monotonicity -/

/-- A configuration for the concrete examples: the local node is `"a"`. -/
def cfg0 : Config := ⟨"a", 1, 1, 1, 1⟩

/-- The empty starting view of node `"a"`. -/
def st0 : MState := ⟨cfg0, [], [], 0, 0, false, 0, [], [], []⟩

/-- Events refuting C2 as stated: the local node joins at incarnation 1,
an inbound Alive about the local node carries incarnation 5 (which the
global counter `m.incarnation` never saw), and then a Suspect at
incarnation 5 triggers the self-refutation path, which stores
`nextIncarnation() = 1`. -/
def cexEvents : List Event :=
  [Event.alive ⟨1, "a", [1], []⟩ 0 1,
   Event.alive ⟨5, "a", [1], []⟩ 0 2,
   Event.suspect ⟨5, "a"⟩ 3]

/-- C2 as stated is false on the code: after the first two events the
local record for `"a"` holds incarnation 5; applying the third
(`suspectNode`) drops it to 1, because the self-refutation path stores
`m.incarnation + 1` from the global counter, not the record's
incarnation plus one.  This exhibits a decrease of `"a"`'s stored
incarnation across a sequence of `aliveNode`/`suspectNode` calls. -/
theorem C2_counterexample :
    incOf (run st0 (cexEvents.take 2)) "a" = some 5 ∧
    incOf (run st0 cexEvents) "a" = some 1 ∧
    run st0 cexEvents = applyEvent (run st0 (cexEvents.take 2)) (Event.suspect ⟨5, "a"⟩ 3) ∧
    ¬ 5 ≤ 1 := by
  refine ⟨by decide, by decide, by decide, by decide⟩

/-- C2 (amended): for every node name X **other than the local node's
name**, and every finite sequence of `aliveNode`, `suspectNode`,
`deadNode` and `mergeState` calls, the Incarnation stored in X's record
never decreases (given the structural invariant that records are stored
under their own name, which every reachable table satisfies).  For the
local node's own name the self-refutation path can decrease the stored
incarnation, as `C2_counterexample` shows. -/
theorem C2_incarnation_monotonic_nonself (st : MState) (evs : List Event)
    (X : String) (hnc : NamesConsistent st) (hX : X ≠ st.config.Name)
    (v : Nat) (hv : incOf st X = some v) :
    ∃ w, incOf (run st evs) X = some w ∧ v ≤ w :=
  run_mono st evs X hnc hX v hv

/-- Closed instance of `C2_incarnation_monotonic_nonself` at a concrete
table and event list. -/
theorem C2_incarnation_monotonic_nonself_witness :
    ∃ w, incOf (run
      ⟨cfg0, ["b"], [("b", ⟨"b", [2], [], 3, StateAlive, 0⟩)], 0, 0, false, 0, [], [], []⟩
      [Event.suspect ⟨7, "b"⟩ 1, Event.dead ⟨7, "b"⟩ 2]) "b" = some w ∧ 3 ≤ w :=
  C2_incarnation_monotonic_nonself
    ⟨cfg0, ["b"], [("b", ⟨"b", [2], [], 3, StateAlive, 0⟩)], 0, 0, false, 0, [], [], []⟩
    [Event.suspect ⟨7, "b"⟩ 1, Event.dead ⟨7, "b"⟩ 2] "b"
    (by decide) (by decide) 3 (by decide)

/-! ## Claim C3: tie-break rules at equal incarnation -/

/-- C3: at equal incarnation numbers the tie-break holds for every
record of a coherent table (records stored under their own name, self
never Suspect — both invariants of every reachable table, see
`run_namesConsistent` and `run_selfNotSuspect`): a Suspect event does
not change a record already Suspect or Dead (at any incarnation, in
particular an equal one); a Dead event at equal incarnation transitions
a Suspect record to Dead; and an Alive event at equal incarnation
changes nothing. -/
theorem C3_equal_incarnation_tiebreak (st : MState)
    (hnc : NamesConsistent st) (hsns : SelfNotSuspect st) :
    (∀ (s : Suspect) (now : Nat) (v : NodeState),
       lookupA st.nodeMap s.Node = some v →
       (v.State = StateSuspect ∨ v.State = StateDead) →
       suspectNode st s now = st) ∧
    (∀ (d : Dead) (now : Nat) (v : NodeState),
       lookupA st.nodeMap d.Node = some v →
       v.State = StateSuspect → d.Incarnation = v.Incarnation →
       lookupA (deadNode st d now).nodeMap d.Node =
         some { v with Incarnation := d.Incarnation, State := StateDead,
                       StateChange := now }) ∧
    (∀ (a : Alive) (offset now : Nat) (v : NodeState),
       lookupA st.nodeMap a.Node = some v →
       a.Incarnation = v.Incarnation →
       aliveNode st a offset now = st) := by
  refine ⟨?_, ?_, ?_⟩
  · intro s now v h1 h2
    refine suspectNode_nonAlive st s now v h1 ?_
    rcases h2 with h2 | h2 <;> rw [h2] <;> decide
  · intro d now v h1 h2 h3
    have hne : d.Node ≠ st.config.Name := by
      intro hcontra
      exact hsns ⟨d.Node, v⟩ (lookupA_mem _ _ _ h1) hcontra h2
    have hvn : v.Name = d.Node := hnc ⟨d.Node, v⟩ (lookupA_mem _ _ _ h1)
    have hnd : v.State ≠ StateDead := by
      rw [h2]
      decide
    have hlt : ¬ d.Incarnation < v.Incarnation := by
      rw [h3]
      exact Nat.lt_irrefl _
    rw [deadNode_mark st d now v h1 hlt hnd
      (by
        intro hcontra
        exact hne (hvn ▸ hcontra.1))]
    exact lookupA_insert_self _ _ _
  · intro a offset now v h1 h2
    rw [aliveNode_known st a offset now v h1]
    exact aliveNodeUpdate_old st a now v h1 (Nat.le_of_eq h2)

/-- A concrete table for witnesses: the local node `"a"` plus `"b"`
Alive at incarnation 5 and `"c"` Suspect at incarnation 4. -/
def stT : MState :=
  ⟨cfg0, ["b", "c"],
   [("b", ⟨"b", [2], [], 5, StateAlive, 1⟩), ("c", ⟨"c", [3], [], 4, StateSuspect, 2⟩)],
   0, 0, false, 0, [], [], []⟩

/-- Closed instance of `C3_equal_incarnation_tiebreak`: a Suspect at the
stored incarnation of an already-Suspect record is a no-op, a Dead at
the stored incarnation kills it, and an Alive at the stored incarnation
of an Alive record is a no-op. -/
theorem C3_equal_incarnation_tiebreak_witness :
    suspectNode stT ⟨4, "c"⟩ 9 = stT ∧
    lookupA (deadNode stT ⟨4, "c"⟩ 9).nodeMap "c" =
      some ⟨"c", [3], [], 4, StateDead, 9⟩ ∧
    aliveNode stT ⟨5, "b", [], []⟩ 0 9 = stT :=
  ⟨(C3_equal_incarnation_tiebreak stT (by decide) (by decide)).1
     ⟨4, "c"⟩ 9 ⟨"c", [3], [], 4, StateSuspect, 2⟩ (by decide) (Or.inl rfl),
   (C3_equal_incarnation_tiebreak stT (by decide) (by decide)).2.1
     ⟨4, "c"⟩ 9 ⟨"c", [3], [], 4, StateSuspect, 2⟩ (by decide) rfl rfl,
   (C3_equal_incarnation_tiebreak stT (by decide) (by decide)).2.2
     ⟨5, "b", [], []⟩ 0 9 ⟨"b", [2], [], 5, StateAlive, 1⟩ (by decide) rfl⟩

/-! ## Claim C1: self refutation -/

/-- C1 as stated is false on the code, in its incarnation arithmetic:
reachable by `cexEvents` from the empty view, the local record holds
incarnation 5 and a Suspect with equal incarnation arrives, yet the
broadcast Alive carries incarnation 1 (the global counter plus one), not
5 + 1, and the record is set to 1. -/
theorem C1_counterexample :
    incOf (run st0 (cexEvents.take 2)) "a" = some 5 ∧
    (run st0 cexEvents).broadcasts.getLast? =
      some (Broadcast.aliveMsg ⟨1, "a", [1], []⟩) ∧
    incOf (run st0 cexEvents) "a" = some 1 ∧
    ¬ (1 = 5 + 1) := by
  refine ⟨by decide, by decide, by decide, by decide⟩

/-- C1 (amended): for every inbound Suspect about the local node's name
whose incarnation is at least the record's, **provided the record is in
state Alive** (and likewise for a Dead event provided the record is not
Dead and leave has not been initiated), the state machine broadcasts an
Alive whose incarnation is the global incarnation counter plus one
(mod 2^32) — which equals the record's previous incarnation plus one
exactly when the counter agrees with the record, as it does when only
the node itself has raised its incarnation — stores that value in the
record, and leaves the record's State unchanged. -/
theorem C1_self_refutation (st : MState) (hnc : NamesConsistent st) :
    (∀ (s : Suspect) (now : Nat) (v : NodeState),
      s.Node = st.config.Name →
      lookupA st.nodeMap s.Node = some v →
      v.State = StateAlive →
      v.Incarnation ≤ s.Incarnation →
      (suspectNode st s now).broadcasts =
        st.broadcasts ++
          [Broadcast.aliveMsg ⟨(st.incarnation + 1) % U32, v.Name, v.Addr, v.Meta⟩] ∧
      lookupA (suspectNode st s now).nodeMap s.Node =
        some { v with Incarnation := (st.incarnation + 1) % U32 } ∧
      (suspectNode st s now).incarnation = (st.incarnation + 1) % U32) ∧
    (∀ (d : Dead) (now : Nat) (v : NodeState),
      d.Node = st.config.Name →
      lookupA st.nodeMap d.Node = some v →
      v.State ≠ StateDead →
      st.leave = false →
      v.Incarnation ≤ d.Incarnation →
      (deadNode st d now).broadcasts =
        st.broadcasts ++
          [Broadcast.aliveMsg ⟨(st.incarnation + 1) % U32, v.Name, v.Addr, v.Meta⟩] ∧
      lookupA (deadNode st d now).nodeMap d.Node =
        some { v with Incarnation := (st.incarnation + 1) % U32 } ∧
      (deadNode st d now).incarnation = (st.incarnation + 1) % U32) := by
  constructor
  · intro s now v hself h1 h3 hle
    have hvn : v.Name = st.config.Name :=
      hself ▸ hnc ⟨s.Node, v⟩ (lookupA_mem _ _ _ h1)
    rw [suspectNode_refute st s now v h1 (Nat.not_lt.2 hle) h3 hvn]
    exact ⟨rfl, lookupA_insert_self _ _ _, rfl⟩
  · intro d now v hself h1 h3 hleave hle
    have hvn : v.Name = st.config.Name :=
      hself ▸ hnc ⟨d.Node, v⟩ (lookupA_mem _ _ _ h1)
    rw [deadNode_refute st d now v h1 (Nat.not_lt.2 hle) h3 hvn hleave]
    exact ⟨rfl, lookupA_insert_self _ _ _, rfl⟩

/-- A view whose global incarnation counter agrees with the self
record's incarnation (5), as after an undisturbed join and refutations
only by the node itself. -/
def stC1 : MState :=
  ⟨cfg0, ["a"], [("a", ⟨"a", [1], [], 5, StateAlive, 0⟩)], 5, 0, false, 0, [], [], []⟩

/-- Closed instance of `C1_self_refutation`: with counter and record in
agreement at 5, the refutation broadcast and the stored incarnation are
both 6. -/
theorem C1_self_refutation_witness :
    ((suspectNode stC1 ⟨5, "a"⟩ 7).broadcasts =
        [Broadcast.aliveMsg ⟨6, "a", [1], []⟩] ∧
      lookupA (suspectNode stC1 ⟨5, "a"⟩ 7).nodeMap "a" =
        some ⟨"a", [1], [], 6, StateAlive, 0⟩ ∧
      (suspectNode stC1 ⟨5, "a"⟩ 7).incarnation = 6) ∧
    ((deadNode stC1 ⟨6, "a"⟩ 8).broadcasts =
        [Broadcast.aliveMsg ⟨6, "a", [1], []⟩] ∧
      lookupA (deadNode stC1 ⟨6, "a"⟩ 8).nodeMap "a" =
        some ⟨"a", [1], [], 6, StateAlive, 0⟩ ∧
      (deadNode stC1 ⟨6, "a"⟩ 8).incarnation = 6) :=
  ⟨(C1_self_refutation stC1 (by decide)).1 ⟨5, "a"⟩ 7
     ⟨"a", [1], [], 5, StateAlive, 0⟩ rfl (by decide) rfl (by decide),
   (C1_self_refutation stC1 (by decide)).2 ⟨6, "a"⟩ 8
     ⟨"a", [1], [], 5, StateAlive, 0⟩ rfl (by decide) (by decide) rfl (by decide)⟩

/-! ## Claim C4: the suspicion timer -/

theorem suspicionFire_none (st : MState) (name : String) (t now : Nat)
    (h : lookupA st.nodeMap name = none) :
    suspicionFire st name t now = st := by
  simp only [suspicionFire, h]

theorem suspicionFire_noop (st : MState) (name : String) (t now : Nat)
    (v : NodeState) (h1 : lookupA st.nodeMap name = some v)
    (h2 : ¬ (v.State = StateSuspect ∧ v.StateChange = t)) :
    suspicionFire st name t now = st := by
  simp only [suspicionFire, h1, if_neg h2]

theorem suspicionFire_fires (st : MState) (name : String) (t now : Nat)
    (v : NodeState) (h1 : lookupA st.nodeMap name = some v)
    (h2 : v.State = StateSuspect) (h3 : v.StateChange = t) :
    suspicionFire st name t now = deadNode st ⟨v.Incarnation, v.Name⟩ now := by
  simp only [suspicionFire, h1, if_pos (And.intro h2 h3)]

/-- C4: the armed suspicion timer synthesizes
`Dead{Inc: state.Inc, Name: state.Name}` and feeds it to the state
machine on fire if and only if at fire time the record is still Suspect
and its `StateChange` equals the value captured at arming; in
particular, an intervening Alive refutation of a Suspect record makes
the fired timer a no-op (the fourth conjunct — no explicit cancellation
is needed). -/
theorem C4_suspicion_timer (st : MState) (name : String) (t now : Nat) :
    (∀ v : NodeState, lookupA st.nodeMap name = some v →
       v.State = StateSuspect → v.StateChange = t →
       suspicionFire st name t now = deadNode st ⟨v.Incarnation, v.Name⟩ now) ∧
    (∀ v : NodeState, lookupA st.nodeMap name = some v →
       v.State ≠ StateSuspect ∨ v.StateChange ≠ t →
       suspicionFire st name t now = st) ∧
    (lookupA st.nodeMap name = none → suspicionFire st name t now = st) ∧
    (∀ (a : Alive) (offset now' : Nat) (v : NodeState),
       a.Node = name →
       lookupA st.nodeMap name = some v →
       v.State = StateSuspect →
       v.Incarnation < a.Incarnation →
       suspicionFire (aliveNode st a offset now') name t now =
         aliveNode st a offset now') := by
  refine ⟨?_, ?_, ?_, ?_⟩
  · intro v h1 h2 h3
    exact suspicionFire_fires st name t now v h1 h2 h3
  · intro v h1 h2
    refine suspicionFire_noop st name t now v h1 ?_
    intro hcontra
    rcases h2 with h2 | h2
    · exact h2 hcontra.1
    · exact h2 hcontra.2
  · exact suspicionFire_none st name t now
  · intro a offset now' v ha h1 h2 hlt
    subst ha
    have hns : v.State ≠ StateAlive := by
      rw [h2]
      decide
    have hnd : v.State ≠ StateDead := by
      rw [h2]
      decide
    rw [aliveNode_known st a offset now' v h1,
      aliveNodeUpdate_fromSuspect st a now' v h1 (Nat.not_le.2 hlt) hns hnd]
    refine suspicionFire_noop _ _ _ _ _ (lookupA_insert_self _ _ _) ?_
    intro hcontra
    have : StateAlive = StateSuspect := hcontra.1
    simp [StateAlive, StateSuspect] at this

/-- Closed instance of `C4_suspicion_timer` on the concrete table `stT`
(where `"c"` is Suspect with `StateChange = 2`): the timer that captured
change time 2 fires `Dead{4, "c"}`; a timer that captured a stale change
time is a no-op; after an Alive refutation of `"c"` the fired timer is a
no-op. -/
theorem C4_suspicion_timer_witness :
    suspicionFire stT "c" 2 9 = deadNode stT ⟨4, "c"⟩ 9 ∧
    suspicionFire stT "c" 5 9 = stT ∧
    suspicionFire (aliveNode stT ⟨6, "c", [], []⟩ 0 7) "c" 2 9 =
      aliveNode stT ⟨6, "c", [], []⟩ 0 7 :=
  ⟨(C4_suspicion_timer stT "c" 2 9).1 ⟨"c", [3], [], 4, StateSuspect, 2⟩
     (by decide) rfl rfl,
   (C4_suspicion_timer stT "c" 5 9).2.1 ⟨"c", [3], [], 4, StateSuspect, 2⟩
     (by decide) (Or.inr (by decide)),
   (C4_suspicion_timer stT "c" 2 9).2.2.2 ⟨6, "c", [], []⟩ 0 7
     ⟨"c", [3], [], 4, StateSuspect, 2⟩ rfl (by decide) rfl (by decide)⟩

/-! ## Claim C10: first mention at incarnation zero -/

theorem swapL_length {α : Type} (l : List α) (i j : Nat) :
    (swapL l i j).length = l.length := by
  unfold swapL
  split
  · simp
  · rfl

theorem swapL_get? {α : Type} (l : List α) (i j : Nat) (a b : α)
    (ha : l.get? i = some a) (hb : l.get? j = some b) :
    (swapL l i j).get? j = some a ∧
    (i ≠ j → (swapL l i j).get? i = some b) := by
  have hi : i < l.length := by
    by_contra hcon
    rw [List.get?_eq_none.2 (Nat.le_of_not_lt hcon)] at ha
    cases ha
  have hj : j < l.length := by
    by_contra hcon
    rw [List.get?_eq_none.2 (Nat.le_of_not_lt hcon)] at hb
    cases hb
  unfold swapL
  rw [ha, hb]
  constructor
  · exact List.get?_set_eq_of_lt a (by simpa using hj)
  · intro hij
    rw [List.get?_set_ne a _ (fun h => hij h.symm),
      List.get?_set_eq_of_lt b hi]

/-- C10: an Alive about an unknown name carrying incarnation 0 inserts a
Dead record with incarnation 0 and the carried Addr/Meta; the map and
the sequence each grow by one, the new name sits at the random offset
with the previous occupant of that slot moved to the tail; nothing is
broadcast and no Join is emitted; and the record stays Dead under any
further event about that name carrying incarnation 0 (only an Alive with
incarnation ≥ 1 can change it). -/
theorem C10_new_node_starts_dead (st : MState) (a : Alive) (offset now : Nat)
    (hnew : lookupA st.nodeMap a.Node = none)
    (hinc : a.Incarnation = 0)
    (hoff : offset ≤ st.nodes.length) :
    lookupA (aliveNode st a offset now).nodeMap a.Node =
      some ⟨a.Node, a.Addr, a.Meta, 0, StateDead, 0⟩ ∧
    (aliveNode st a offset now).nodeMap.length = st.nodeMap.length + 1 ∧
    (aliveNode st a offset now).nodes.length = st.nodes.length + 1 ∧
    (aliveNode st a offset now).nodes.get? offset = some a.Node ∧
    (offset < st.nodes.length →
      (aliveNode st a offset now).nodes.get? st.nodes.length =
        st.nodes.get? offset) ∧
    (aliveNode st a offset now).broadcasts = st.broadcasts ∧
    (aliveNode st a offset now).joins = st.joins ∧
    (∀ (s : Suspect) (now' : Nat), s.Node = a.Node →
      suspectNode (aliveNode st a offset now) s now' = aliveNode st a offset now) ∧
    (∀ (d : Dead) (now' : Nat), d.Node = a.Node →
      deadNode (aliveNode st a offset now) d now' = aliveNode st a offset now) ∧
    (∀ (a2 : Alive) (off2 now2 : Nat), a2.Node = a.Node → a2.Incarnation = 0 →
      aliveNode (aliveNode st a offset now) a2 off2 now2 = aliveNode st a offset now) := by
  have hst' : aliveNode st a offset now =
      { st with
        nodeMap := insertA st.nodeMap a.Node ⟨a.Node, a.Addr, a.Meta, 0, StateDead, 0⟩,
        nodes := swapL (st.nodes ++ [a.Node]) offset st.nodes.length } := by
    rw [aliveNode_new st a offset now hnew]
    exact aliveNodeUpdate_old _ a now ⟨a.Node, a.Addr, a.Meta, 0, StateDead, 0⟩
      (lookupA_insert_self _ _ _) (by rw [hinc])
  have hlook : lookupA (aliveNode st a offset now).nodeMap a.Node =
      some ⟨a.Node, a.Addr, a.Meta, 0, StateDead, 0⟩ := by
    rw [hst']
    exact lookupA_insert_self _ _ _
  have htail : (st.nodes ++ [a.Node]).get? st.nodes.length = some a.Node := by
    rw [List.get?_append_right (Nat.le_refl _)]
    simp
  refine ⟨hlook, ?_, ?_, ?_, ?_, ?_, ?_, ?_, ?_, ?_⟩
  · rw [hst']
    exact length_insertA_of_none st.nodeMap a.Node _ hnew
  · rw [hst']
    show (swapL (st.nodes ++ [a.Node]) offset st.nodes.length).length = _
    rw [swapL_length]
    simp
  · rw [hst']
    show (swapL (st.nodes ++ [a.Node]) offset st.nodes.length).get? offset = _
    rcases Nat.lt_or_ge offset st.nodes.length with hlt | hge
    · have hofs : (st.nodes ++ [a.Node]).get? offset = st.nodes.get? offset := by
        rw [List.get?_append hlt]
      obtain ⟨b, hb⟩ : ∃ b, st.nodes.get? offset = some b := by
        cases hx : st.nodes.get? offset with
        | none =>
          rw [List.get?_eq_none] at hx
          exact absurd hlt (Nat.not_lt.2 hx)
        | some b => exact ⟨b, rfl⟩
      exact (swapL_get? _ offset st.nodes.length b a.Node (hofs.trans hb) htail).2
        (Nat.ne_of_lt hlt)
    · have hoe : offset = st.nodes.length := Nat.le_antisymm hoff hge
      subst hoe
      exact (swapL_get? _ st.nodes.length st.nodes.length a.Node a.Node htail htail).1
  · intro hlt
    rw [hst']
    show (swapL (st.nodes ++ [a.Node]) offset st.nodes.length).get? st.nodes.length = _
    have hofs : (st.nodes ++ [a.Node]).get? offset = st.nodes.get? offset := by
      rw [List.get?_append hlt]
    obtain ⟨b, hb⟩ : ∃ b, st.nodes.get? offset = some b := by
      cases hx : st.nodes.get? offset with
      | none =>
        rw [List.get?_eq_none] at hx
        exact absurd hlt (Nat.not_lt.2 hx)
      | some b => exact ⟨b, rfl⟩
    rw [(swapL_get? _ offset st.nodes.length b a.Node (hofs.trans hb) htail).1, hb]
  · rw [hst']
  · rw [hst']
  · intro s now' hs
    refine suspectNode_nonAlive _ s now' ⟨a.Node, a.Addr, a.Meta, 0, StateDead, 0⟩
      (hs ▸ hlook) ?_
    exact (by decide : StateDead ≠ StateAlive)
  · intro d now' hd
    exact deadNode_alreadyDead _ d now' ⟨a.Node, a.Addr, a.Meta, 0, StateDead, 0⟩
      (hd ▸ hlook) rfl
  · intro a2 off2 now2 ha2 hinc2
    rw [aliveNode_known _ a2 off2 now2 ⟨a.Node, a.Addr, a.Meta, 0, StateDead, 0⟩
      (ha2 ▸ hlook)]
    exact aliveNodeUpdate_old _ a2 now2 ⟨a.Node, a.Addr, a.Meta, 0, StateDead, 0⟩
      (ha2 ▸ hlook) (by rw [hinc2])

/-- Closed instance of `C10_new_node_starts_dead`: inserting the unknown
node `"d"` at offset 1 of the two-element table `stT`. -/
theorem C10_new_node_starts_dead_witness :
    lookupA (aliveNode stT ⟨0, "d", [4], [7]⟩ 1 9).nodeMap "d" =
      some ⟨"d", [4], [7], 0, StateDead, 0⟩ ∧
    (aliveNode stT ⟨0, "d", [4], [7]⟩ 1 9).nodeMap.length = 3 ∧
    (aliveNode stT ⟨0, "d", [4], [7]⟩ 1 9).nodes.length = 3 ∧
    (aliveNode stT ⟨0, "d", [4], [7]⟩ 1 9).nodes.get? 1 = some "d" ∧
    (aliveNode stT ⟨0, "d", [4], [7]⟩ 1 9).broadcasts = [] ∧
    (aliveNode stT ⟨0, "d", [4], [7]⟩ 1 9).joins = [] :=
  have h := C10_new_node_starts_dead stT ⟨0, "d", [4], [7]⟩ 1 9
    (by decide) rfl (by decide)
  ⟨h.1, h.2.1, h.2.2.1, h.2.2.2.1, h.2.2.2.2.2.1, h.2.2.2.2.2.2.1⟩

/-! ## Claim C6: the probe tick -/

/-- A table with the local node `"a"` at position 0, a dead `"x"` at
position 1 and a live `"b"` at position 2. -/
def stSkip : MState :=
  ⟨cfg0, ["a", "x", "b"],
   [("a", ⟨"a", [1], [], 1, StateAlive, 0⟩),
    ("x", ⟨"x", [9], [], 2, StateDead, 3⟩),
    ("b", ⟨"b", [2], [], 5, StateAlive, 1⟩)],
   1, 0, false, 0, [], [], []⟩

/-- C6: the probe tick does skip self and Dead records (on `stSkip` it
skips positions 0 and 1 and probes `"b"` at position 2, leaving
`probeIndex = 2`), but after probing a record it does **not** advance
`probeIndex` past it: the tick returns with `probeIndex` still at the
probed position, so the next tick probes the very same record again
(`"b"` twice on `stT`, and again `"b"` on `stSkip`), contradicting the
claimed round-robin advancement. -/
theorem C6_probe_index_not_advanced :
    probe [] stT = (stT, some "b") ∧
    (probe [] stT).1.probeIndex = 0 ∧
    probe [] (probe [] stT).1 = (stT, some "b") ∧
    (probe [] stSkip).2 = some "b" ∧
    (probe [] stSkip).1.probeIndex = 2 ∧
    (probe [] (probe [] stSkip).1).2 = some "b" ∧
    (probe [] (probe [] stSkip).1).1.probeIndex = 2 := by
  refine ⟨by decide, by decide, by decide, by decide, by decide, by decide, by decide⟩

/-! ## Claim C7: scheduler arming conditions -/

/-- C7 as stated is false on the code in two ways.  With
`GossipInterval = 0` but `GossipNodes = 3`, `schedule` does not cleanly
disable gossip: it reaches `time.NewTicker(0)`, which panics (so no
activity runs at all).  With `GossipInterval = 5` but `GossipNodes = 0`,
`schedule` completes but arms no gossip ticker even though the period is
non-zero — a configuration field other than the three intervals decides
the gossip arming. -/
theorem C7_counterexample :
    schedule ⟨"a", 1, 1, 0, 3⟩ =
      Except.error "non-positive interval for NewTicker" ∧
    (⟨"a", 1, 1, 0, 3⟩ : Config).GossipInterval = 0 ∧
    schedule ⟨"a", 1, 1, 5, 0⟩ = Except.ok [Activity.probeA, Activity.pushPullA] ∧
    (⟨"a", 1, 1, 5, 0⟩ : Config).GossipInterval = 5 := by
  refine ⟨rfl, by decide, rfl, by decide⟩

/-- C7 (amended): when `schedule` completes normally, the probe ticker
is armed exactly when `ProbeInterval > 0`, the push/pull ticker exactly
when `PushPullInterval > 0`, and the gossip ticker exactly when
`GossipNodes > 0`; and `schedule` fails to complete — it panics in
`time.NewTicker` and no activity runs — exactly when `GossipNodes > 0`
while `GossipInterval` is not positive.  A zero `GossipInterval` never
merely disables gossip: with `GossipNodes = 0` it is `GossipNodes` that
disables it, and with `GossipNodes > 0` the scheduler panics. -/
theorem C7_schedule_arming (c : Config) :
    (∀ ts : List Activity, schedule c = Except.ok ts →
      (Activity.probeA ∈ ts ↔ c.ProbeInterval > 0) ∧
      (Activity.pushPullA ∈ ts ↔ c.PushPullInterval > 0) ∧
      (Activity.gossipA ∈ ts ↔ c.GossipNodes > 0)) ∧
    ((∃ e, schedule c = Except.error e) ↔
      c.GossipNodes > 0 ∧ ¬ c.GossipInterval > 0) := by
  unfold schedule
  by_cases h1 : c.ProbeInterval > 0 <;> by_cases h2 : c.PushPullInterval > 0 <;>
    by_cases h3 : c.GossipNodes > 0 <;> by_cases h4 : c.GossipInterval > 0 <;>
    simp [h1, h2, h3, h4]

/-- Closed instance of `C7_schedule_arming`: a configuration with all
three activities enabled arms all three tickers, and the arming of each
matches its governing field. -/
theorem C7_schedule_arming_witness :
    (Activity.probeA ∈ [Activity.probeA, Activity.pushPullA, Activity.gossipA] ↔
      (⟨"a", 2, 3, 4, 5⟩ : Config).ProbeInterval > 0) ∧
    (Activity.pushPullA ∈ [Activity.probeA, Activity.pushPullA, Activity.gossipA] ↔
      (⟨"a", 2, 3, 4, 5⟩ : Config).PushPullInterval > 0) ∧
    (Activity.gossipA ∈ [Activity.probeA, Activity.pushPullA, Activity.gossipA] ↔
      (⟨"a", 2, 3, 4, 5⟩ : Config).GossipNodes > 0) :=
  (C7_schedule_arming ⟨"a", 2, 3, 4, 5⟩).1
    [Activity.probeA, Activity.pushPullA, Activity.gossipA] rfl

/-! ## Claim C9: push/pull error handling -/

/-- C9 as stated is false on the code in its logging half: when
`sendAndReceiveState` fails, `pushPullNode` returns success without
logging anything (it has no log statement on that path, and the log
statement in `pushPull` is unreachable because `pushPullNode` never
returns an error), so the error is swallowed but **not** logged. -/
theorem C9_counterexample :
    pushPullNode stT (Except.error "connection refused") = (stT, none, []) ∧
    (pushPull stT (some "b") (Except.error "connection refused")).2 = [] := by
  exact ⟨rfl, rfl⟩

/-- C9 (amended): whenever `sendAndReceiveState` returns an error during
a push/pull exchange the error is silently swallowed: `pushPullNode`
performs no merge, emits no log line, and reports success to its caller;
`pushPullNode` never returns an error, so `pushPull` never logs and the
round continues as best-effort. -/
theorem C9_pushPull_error_swallowed (st : MState) (e : String)
    (chosen : Option String)
    (recv : Except String (List (PushNodeState × Nat × Nat))) :
    pushPullNode st (Except.error e) = (st, none, []) ∧
    (pushPullNode st recv).2.1 = none ∧
    (pushPull st chosen recv).2 = [] := by
  refine ⟨rfl, ?_, ?_⟩
  · cases recv <;> rfl
  · cases chosen <;> cases recv <;> rfl

/-! ## Claim C5: reset sweep correctness -/

theorem getD_cons_eraseIdx_perm (l : List String) (i : Nat) (h : i < l.length) :
    (l.getD i "" :: l.eraseIdx i).Perm l := by
  induction l generalizing i with
  | nil => simp at h
  | cons x xs ih =>
    cases i with
    | zero => simp [List.Perm.refl]
    | succ i =>
      have hi : i < xs.length := by simpa using h
      show (xs.getD i "" :: x :: xs.eraseIdx i).Perm (x :: xs)
      exact (List.Perm.swap x (xs.getD i "") (xs.eraseIdx i)).trans ((ih i hi).cons x)

theorem shuffleNodes_perm (rand : List Nat) (l : List String) :
    (shuffleNodes rand l).Perm l := by
  induction rand generalizing l with
  | nil => exact List.Perm.refl l
  | cons r rs ih =>
    cases l with
    | nil => exact List.Perm.refl _
    | cons x xs =>
      simp only [shuffleNodes]
      have hlt : r % (x :: xs).length < (x :: xs).length :=
        Nat.mod_lt _ (by simp)
      exact ((ih _).cons _).trans (getD_cons_eraseIdx_perm (x :: xs) _ hlt)

theorem lookupA_eraseFold (ds : List String) (m : List (String × NodeState))
    (k : String) :
    lookupA (ds.foldl (fun mm n => eraseA mm n) m) k =
      if k ∈ ds then none else lookupA m k := by
  induction ds generalizing m with
  | nil => simp
  | cons d rest ih =>
    simp only [List.foldl_cons]
    rw [ih]
    by_cases hk : k ∈ rest
    · simp [hk]
    · by_cases hd : k = d
      · subst hd
        simp [hk, lookupA_erase_self]
      · simp [hk, hd, lookupA_erase_ne m d k hd]

theorem resetNodes_eq (rand : List Nat) (st : MState) :
    resetNodes rand st =
      { st with
        nodeMap := (st.nodes.filter (fun n => isDeadIn st.nodeMap n)).foldl
          (fun m n => eraseA m n) st.nodeMap,
        nodes := shuffleNodes rand
          (st.nodes.filter (fun n => !(isDeadIn st.nodeMap n))) } := by
  simp only [resetNodes, moveDeadNodes]
  rw [List.take_left, List.drop_left]

/-- C5: starting from any coherent node table (every sequence entry has
a map record and every map record's name is in the sequence), after the
reset sweep together with the wrap-around handling in `probe`
(`probeWrap`), the sequence contains exactly the names whose records
were not Dead, the mapping and the sequence contain exactly the same set
of names (every removed Dead name is dropped from both at once), and
`probeIndex = 0`. -/
theorem C5_reset_correctness (rand : List Nat) (st : MState)
    (hcoh1 : ∀ n ∈ st.nodes, (lookupA st.nodeMap n).isSome = true)
    (hcoh2 : ∀ p ∈ st.nodeMap, p.1 ∈ st.nodes) :
    (∀ n, n ∈ (probeWrap rand st).nodes ↔
       n ∈ st.nodes ∧ isDeadIn st.nodeMap n = false) ∧
    (∀ n, (lookupA (probeWrap rand st).nodeMap n).isSome = true ↔
       n ∈ (probeWrap rand st).nodes) ∧
    (probeWrap rand st).probeIndex = 0 := by
  have hnodes : (probeWrap rand st).nodes =
      shuffleNodes rand (st.nodes.filter (fun n => !(isDeadIn st.nodeMap n))) := by
    simp only [probeWrap, resetNodes_eq]
  have hmap : (probeWrap rand st).nodeMap =
      (st.nodes.filter (fun n => isDeadIn st.nodeMap n)).foldl
        (fun m n => eraseA m n) st.nodeMap := by
    simp only [probeWrap, resetNodes_eq]
  have hmemnodes : ∀ n, n ∈ (probeWrap rand st).nodes ↔
      n ∈ st.nodes ∧ isDeadIn st.nodeMap n = false := by
    intro n
    rw [hnodes, (shuffleNodes_perm rand _).mem_iff, List.mem_filter]
    simp
  refine ⟨hmemnodes, ?_, rfl⟩
  intro n
  rw [hmap, lookupA_eraseFold, hmemnodes]
  by_cases hdead : n ∈ st.nodes.filter (fun n => isDeadIn st.nodeMap n)
  · rw [if_pos hdead]
    rw [List.mem_filter] at hdead
    simp only [Option.isSome_none]
    constructor
    · intro hcontra
      cases hcontra
    · intro hcontra
      rw [hcontra.2] at hdead
      cases hdead.2
  · rw [if_neg hdead]
    rw [List.mem_filter] at hdead
    constructor
    · intro hsome
      obtain ⟨v, hv⟩ := Option.isSome_iff_exists.1 hsome
      have hin : n ∈ st.nodes := hcoh2 ⟨n, v⟩ (lookupA_mem _ _ _ hv)
      refine ⟨hin, ?_⟩
      cases hid : isDeadIn st.nodeMap n with
      | false => rfl
      | true => exact absurd ⟨hin, hid⟩ hdead
    · intro hn
      exact hcoh1 n hn.1

/-- Closed instance of `C5_reset_correctness` on `stSkip` (which holds
the dead record `"x"`): after the sweep the live `"b"` is kept, the
dead `"x"`'s mapping entry is gone exactly as its sequence entry is, and
the probe index is reset. -/
theorem C5_reset_correctness_witness :
    ("b" ∈ (probeWrap [] stSkip).nodes ↔
       "b" ∈ stSkip.nodes ∧ isDeadIn stSkip.nodeMap "b" = false) ∧
    ((lookupA (probeWrap [] stSkip).nodeMap "x").isSome = true ↔
       "x" ∈ (probeWrap [] stSkip).nodes) ∧
    (probeWrap [] stSkip).probeIndex = 0 :=
  have h := C5_reset_correctness [] stSkip (by decide) (by decide)
  ⟨h.1 "b", h.2.1 "x", h.2.2⟩

/-! ## Claim C8: at-most-once delivery in the ack registry -/

theorem mem_eraseA {κ α : Type} [DecidableEq κ]
    (m : List (κ × α)) (k : κ) (p : κ × α) (h : p ∈ eraseA m k) :
    p ∈ m ∧ p.1 ≠ k := by
  induction m with
  | nil => simp [eraseA] at h
  | cons q rest ih =>
    rcases q with ⟨kq, vq⟩
    by_cases hq : kq = k
    · simp only [eraseA, if_pos hq] at h
      obtain ⟨h1, h2⟩ := ih h
      exact ⟨List.mem_cons_of_mem _ h1, h2⟩
    · simp only [eraseA, if_neg hq] at h
      rcases List.mem_cons.1 h with rfl | h
      · exact ⟨List.mem_cons_self _ _, hq⟩
      · obtain ⟨h1, h2⟩ := ih h
        exact ⟨List.mem_cons_of_mem _ h1, h2⟩

theorem countEv_append (evs evs' : List (Nat × Bool)) (rid : Nat) :
    countEv (evs ++ evs') rid = countEv evs rid + countEv evs' rid := by
  simp [countEv, List.filter_append]

theorem countEv_single_self (b : Bool) (rid : Nat) :
    countEv [(rid, b)] rid = 1 := by
  simp [countEv]

theorem countEv_single_ne (b : Bool) (rid rid' : Nat) (h : rid' ≠ rid) :
    countEv [(rid, b)] rid' = 0 := by
  simp [countEv, List.filter_cons]
  intro hcontra
  exact absurd hcontra.symm h

theorem countEv_zero_of_bounded (evs : List (Nat × Bool)) (n : Nat)
    (h : ∀ e ∈ evs, e.1 < n) : countEv evs n = 0 := by
  simp only [countEv, List.length_eq_zero]
  rw [List.filter_eq_nil]
  intro e he
  have := h e he
  simp only [beq_iff_eq]
  exact Nat.ne_of_lt this

/-- The timer-presence contribution of `rid` to the delivery budget. -/
def timerCnt (st : AckState) (rid : Nat) : Nat :=
  if (lookupA st.timers rid).isSome then 1 else 0

/-- The inductive invariant of the ack registry: every registration's
deliveries plus its armed-timer budget stay at most one; every map entry
points at its own armed timer; and identifiers are allocated
monotonically. -/
structure AckInv (st : AckState) : Prop where
  bound : ∀ rid, countRid st rid + timerCnt st rid ≤ 1
  hpair : ∀ p ∈ st.handlers, lookupA st.timers p.2 = some p.1
  freshH : ∀ p ∈ st.handlers, p.2 < st.nextRid
  freshT : ∀ p ∈ st.timers, p.1 < st.nextRid
  freshE : ∀ e ∈ st.events, e.1 < st.nextRid

theorem ackInv_init : AckInv ackInit := by
  refine ⟨?_, ?_, ?_, ?_, ?_⟩ <;> intro p <;> simp [ackInit, countRid, countEv, timerCnt, lookupA]

theorem lookupA_cons_ne {κ α : Type} [DecidableEq κ]
    (k k' : κ) (v : α) (m : List (κ × α)) (h : k ≠ k') :
    lookupA ((k, v) :: m) k' = lookupA m k' := by
  simp [lookupA, h]

theorem lookupA_cons_self {κ α : Type} [DecidableEq κ]
    (k : κ) (v : α) (m : List (κ × α)) :
    lookupA ((k, v) :: m) k = some v := by
  simp [lookupA]

theorem ackInv_setAck (st : AckState) (seqNo : Nat) (h : AckInv st) :
    AckInv (setAck st seqNo) := by
  refine ⟨?_, ?_, ?_, ?_, ?_⟩
  · intro rid
    by_cases hr : rid = st.nextRid
    · have hc : countRid (setAck st seqNo) rid = 0 := by
        show countEv st.events rid = 0
        rw [hr]
        exact countEv_zero_of_bounded st.events st.nextRid h.freshE
      rw [hc]
      unfold timerCnt
      split <;> simp
    · have hb := h.bound rid
      have hc : countRid (setAck st seqNo) rid = countRid st rid := rfl
      have ht : timerCnt (setAck st seqNo) rid = timerCnt st rid := by
        unfold timerCnt
        rw [show (setAck st seqNo).timers = (st.nextRid, seqNo) :: st.timers from rfl,
          lookupA_cons_ne _ _ _ _ (fun hcontra => hr hcontra.symm)]
      rw [hc, ht]
      exact hb
  · intro p hp
    rcases mem_insertA _ _ _ _ hp with rfl | hp2
    · simp only [setAck]
      exact lookupA_cons_self _ _ _
    · have := h.hpair p hp2
      have hne : st.nextRid ≠ p.2 := by
        intro hcontra
        exact absurd hcontra.symm (Nat.ne_of_lt (h.freshH p hp2))
      simp only [setAck]
      rw [lookupA_cons_ne _ _ _ _ hne]
      exact this
  · intro p hp
    rcases mem_insertA _ _ _ _ hp with rfl | hp2
    · exact Nat.lt_succ_self _
    · exact Nat.lt_succ_of_lt (h.freshH p hp2)
  · intro p hp
    rcases List.mem_cons.1 hp with rfl | hp2
    · exact Nat.lt_succ_self _
    · exact Nat.lt_succ_of_lt (h.freshT p hp2)
  · intro e he
    exact Nat.lt_succ_of_lt (h.freshE e he)

theorem ackInv_invoke (st : AckState) (seqNo : Nat) (h : AckInv st) :
    AckInv (invokeAckHandler st seqNo) := by
  cases hl : lookupA st.handlers seqNo with
  | none =>
    simpa [invokeAckHandler, hl] using h
  | some rid =>
    have hmem : (seqNo, rid) ∈ st.handlers := lookupA_mem _ _ _ hl
    have htimer : lookupA st.timers rid = some seqNo := h.hpair _ hmem
    have hcount : countRid st rid = 0 := by
      have hb := h.bound rid
      rw [timerCnt, htimer] at hb
      simp at hb
      omega
    refine ⟨?_, ?_, ?_, ?_, ?_⟩
    · intro rid'
      by_cases hr : rid' = rid
      · subst hr
        have : countRid (invokeAckHandler st seqNo) rid' = 1 := by
          simp only [invokeAckHandler, hl, countRid, countEv_append]
          rw [show countEv st.events rid' = 0 from hcount, countEv_single_self]
        rw [this, timerCnt]
        simp only [invokeAckHandler, hl]
        rw [lookupA_erase_self]
        simp
      · have hc : countRid (invokeAckHandler st seqNo) rid' = countRid st rid' := by
          simp only [invokeAckHandler, hl, countRid, countEv_append]
          rw [countEv_single_ne _ _ _ hr]
          omega
        have ht : timerCnt (invokeAckHandler st seqNo) rid' = timerCnt st rid' := by
          simp only [invokeAckHandler, hl, timerCnt]
          rw [lookupA_erase_ne _ _ _ hr]
        rw [hc, ht]
        exact h.bound rid'
    · intro p hp
      simp only [invokeAckHandler, hl] at hp ⊢
      obtain ⟨hp2, hne⟩ := mem_eraseA _ _ _ hp
      have hpold := h.hpair p hp2
      have hrne : p.2 ≠ rid := by
        intro hcontra
        rw [hcontra, htimer] at hpold
        cases hpold
        exact hne rfl
      rw [lookupA_erase_ne _ _ _ hrne]
      exact hpold
    · intro p hp
      simp only [invokeAckHandler, hl] at hp ⊢
      exact h.freshH p (mem_eraseA _ _ _ hp).1
    · intro p hp
      simp only [invokeAckHandler, hl] at hp ⊢
      exact h.freshT p (mem_eraseA _ _ _ hp).1
    · intro e he
      simp only [invokeAckHandler, hl] at he ⊢
      rcases List.mem_append.1 he with he | he
      · exact h.freshE e he
      · rcases List.mem_singleton.1 he with rfl
        exact h.freshH _ hmem

theorem ackInv_fire (st : AckState) (rid : Nat) (h : AckInv st) :
    AckInv (reapFire st rid) := by
  cases hl : lookupA st.timers rid with
  | none =>
    simpa [reapFire, hl] using h
  | some seqNo =>
    have hmemT : (rid, seqNo) ∈ st.timers := lookupA_mem _ _ _ hl
    have hcount : countRid st rid = 0 := by
      have hb := h.bound rid
      rw [timerCnt, hl] at hb
      simp at hb
      omega
    refine ⟨?_, ?_, ?_, ?_, ?_⟩
    · intro rid'
      by_cases hr : rid' = rid
      · subst hr
        have : countRid (reapFire st rid') rid' = 1 := by
          simp only [reapFire, hl, countRid, countEv_append]
          rw [show countEv st.events rid' = 0 from hcount, countEv_single_self]
        rw [this, timerCnt]
        simp only [reapFire, hl]
        rw [lookupA_erase_self]
        simp
      · have hc : countRid (reapFire st rid) rid' = countRid st rid' := by
          simp only [reapFire, hl, countRid, countEv_append]
          rw [countEv_single_ne _ _ _ hr]
          omega
        have ht : timerCnt (reapFire st rid) rid' = timerCnt st rid' := by
          simp only [reapFire, hl, timerCnt]
          rw [lookupA_erase_ne _ _ _ hr]
        rw [hc, ht]
        exact h.bound rid'
    · intro p hp
      simp only [reapFire, hl] at hp ⊢
      obtain ⟨hp2, hne⟩ := mem_eraseA _ _ _ hp
      have hpold := h.hpair p hp2
      have hrne : p.2 ≠ rid := by
        intro hcontra
        rw [hcontra, hl] at hpold
        cases hpold
        exact hne rfl
      rw [lookupA_erase_ne _ _ _ hrne]
      exact hpold
    · intro p hp
      simp only [reapFire, hl] at hp ⊢
      exact h.freshH p (mem_eraseA _ _ _ hp).1
    · intro p hp
      simp only [reapFire, hl] at hp ⊢
      exact h.freshT p (mem_eraseA _ _ _ hp).1
    · intro e he
      simp only [reapFire, hl] at he ⊢
      rcases List.mem_append.1 he with he | he
      · exact h.freshE e he
      · rcases List.mem_singleton.1 he with rfl
        exact h.freshT _ hmemT

theorem ackInv_step (st : AckState) (op : AckOp) (h : AckInv st) :
    AckInv (ackStep st op) := by
  cases op with
  | register seqNo => exact ackInv_setAck st seqNo h
  | invoke seqNo => exact ackInv_invoke st seqNo h
  | fire rid => exact ackInv_fire st rid h

theorem ackInv_runAcks (ops : List AckOp) : AckInv (runAcks ops) := by
  have gen : ∀ (ops : List AckOp) (st : AckState), AckInv st →
      AckInv (ops.foldl ackStep st) := by
    intro ops
    induction ops with
    | nil => intro st h; exact h
    | cons op rest ih =>
      intro st h
      exact ih _ (ackInv_step st op h)
  exact gen ops ackInit ackInv_init

/-- C8: across every sequence of registrations (`setAckChannel` /
`setAckHandler`), `invokeAckHandler` calls and reap-timer firings, each
registration is delivered at most once — either its handler runs (an
`invokeAckHandler` hit, which removes the map entry and stops the reap
timer) or its reap timer fires (which removes the entry), never both;
in particular a second `invokeAckHandler` for the same sequence number
with no intervening registration finds no entry and invokes nothing. -/
theorem C8_ack_delivered_at_most_once :
    (∀ (ops : List AckOp) (rid : Nat), countRid (runAcks ops) rid ≤ 1) ∧
    (∀ (st : AckState) (seqNo : Nat),
      invokeAckHandler (invokeAckHandler st seqNo) seqNo =
        invokeAckHandler st seqNo) := by
  constructor
  · intro ops rid
    have h := (ackInv_runAcks ops).bound rid
    omega
  · intro st seqNo
    cases hl : lookupA st.handlers seqNo with
    | none => simp [invokeAckHandler, hl]
    | some rid =>
      have h2 : lookupA (eraseA st.handlers seqNo) seqNo = none :=
        lookupA_erase_self _ _
      simp [invokeAckHandler, hl, h2]

end Memberlist
